import Mathlib

/-!
# Spine-first maze generation: a shallow embedding

This file embeds the spine-first maze generator of the repository in Lean 4
and proves/refutes the frozen specification claims about it.

Modelling conventions:

* The mutable `SpineGenerationCell[][]` grid is embedded as a total function
  `Pos → SCell`.  Source cells carry their own `x`/`y` fields which always
  equal the grid indices (they are set once by `initializeGrid` and never
  written again), so the embedding keys cells by position and drops the
  redundant coordinate copies; `toOutputGrid`, whose claim is about those
  very fields, is embedded separately over the list-of-lists representation.
* `Math.random()` is embedded as an explicit oracle stream `Nat → Q`
  together with a cursor that every phase threads through; each call to
  `Math.random()` in the source consumes one stream element, in program
  order.  Theorems that quantify over executions quantify over all oracles
  whose values lie in `[0, 1)` (`ValidRand`), the codomain of
  `Math.random()`.
* The shuffle `[...cells].sort(() => Math.random() - 0.5)` has an
  engine-defined result (a comparator with side effects); it is embedded as
  an oracle-chosen permutation (`shuffle`) consuming an oracle-chosen number
  of stream elements (`shuffleCost`), which over-approximates every engine.
* JS floating-point numbers are embedded as exact rationals.  To keep the
  whole model evaluable inside the kernel (`decide`/`rfl` on concrete
  executions), rationals are represented by the unnormalised pair type `Q`
  below (numerator/denominator, compared by cross-multiplication) instead
  of Mathlib's `ℚ`, whose normalising arithmetic the kernel does not
  reduce (`Q.toRat` states the intended value of a `Q`).
  Every float constant of the source (0.1, 5, 0.5, …)
  is an exact rational, and no claim depends on float rounding.
-/

/-- Exact rational numbers with explicit (positive, not necessarily
reduced) denominators.  Arithmetic avoids normalisation so that the kernel
can evaluate it. -/
structure Q where
  num : Int
  den : Nat
deriving DecidableEq, Repr

instance (n : Nat) : OfNat Q n := ⟨⟨n, 1⟩⟩

/-- Embed a natural number. -/
def Q.ofNat (n : Nat) : Q := ⟨n, 1⟩

/-- Embed an integer. -/
def Q.ofInt (n : Int) : Q := ⟨n, 1⟩

def Q.add (a b : Q) : Q := ⟨a.num * b.den + b.num * a.den, a.den * b.den⟩

def Q.sub (a b : Q) : Q := ⟨a.num * b.den - b.num * a.den, a.den * b.den⟩

def Q.mul (a b : Q) : Q := ⟨a.num * b.num, a.den * b.den⟩

instance : Add Q := ⟨Q.add⟩
instance : Sub Q := ⟨Q.sub⟩
instance : Mul Q := ⟨Q.mul⟩

/-- Order by cross-multiplication (the denominators are positive). -/
def Q.lt (a b : Q) : Prop := a.num * b.den < b.num * a.den

def Q.le (a b : Q) : Prop := a.num * b.den ≤ b.num * a.den

instance : LT Q := ⟨Q.lt⟩
instance : LE Q := ⟨Q.le⟩

instance (a b : Q) : Decidable (a < b) :=
  inferInstanceAs (Decidable (a.num * b.den < b.num * a.den))

instance (a b : Q) : Decidable (a ≤ b) :=
  inferInstanceAs (Decidable (a.num * b.den ≤ b.num * a.den))

/-- `Math.floor` (floor division, as JS floors toward −∞). -/
def Q.floor (a : Q) : Int := a.num.fdiv a.den

/-- `Math.ceil`. -/
def Q.ceil (a : Q) : Int := -((-a.num).fdiv a.den)

/-- The value of a `Q` as a Mathlib rational. -/
def Q.toRat (a : Q) : ℚ := (a.num : ℚ) / (a.den : ℚ)

/-- Grid position; the source's `Position` `{x, y}`. -/
structure Pos where
  x : Nat
  y : Nat
deriving DecidableEq, Repr

/-- The four wall flags of a cell (`walls` in the source), `true` = wall up. -/
structure Walls where
  top : Bool
  right : Bool
  bottom : Bool
  left : Bool
deriving DecidableEq, Repr

/-- Internal generation cell: wall flags plus the `visited`/`isSpine`
bookkeeping flags of `SpineGenerationCell`. -/
structure SCell where
  walls : Walls
  visited : Bool
  isSpine : Bool
deriving DecidableEq, Repr

/-- The generation grid, keyed by position. -/
def GridF := Pos → SCell

/-- `type Direction = 'up' | 'down' | 'left' | 'right'`. -/
inductive Dir where
  | up | down | left | right
deriving DecidableEq, Repr

/-- `getDirection`: direction from `current` to `next` (source order of
tests: `dx === 1`, `dx === -1`, `dy === 1`, else `up`). -/
def getDirection (current next : Pos) : Dir :=
  let dx : Int := (next.x : Int) - current.x
  let dy : Int := (next.y : Int) - current.y
  if dx = 1 then .right
  else if dx = -1 then .left
  else if dy = 1 then .down
  else .up

/-- `manhattanDistance`. -/
def manhattanDistance (a b : Pos) : Nat :=
  ((a.x : Int) - b.x).natAbs + ((a.y : Int) - b.y).natAbs

/-- `getNeighbors`: all in-bounds geometric neighbours, in source order
(up, right, down, left). -/
def getNeighbors (p : Pos) (width height : Nat) : List Pos :=
  (if 0 < p.y then [Pos.mk p.x (p.y - 1)] else []) ++
  (if p.x + 1 < width then [Pos.mk (p.x + 1) p.y] else []) ++
  (if p.y + 1 < height then [Pos.mk p.x (p.y + 1)] else []) ++
  (if 0 < p.x then [Pos.mk (p.x - 1) p.y] else [])

/-- `getUnvisitedNeighbors`. -/
def getUnvisitedNeighbors (g : GridF) (p : Pos) (width height : Nat) : List Pos :=
  (getNeighbors p width height).filter (fun n => !(g n).visited)

/-- Pointwise cell update. -/
def updateCell (g : GridF) (p : Pos) (f : SCell → SCell) : GridF :=
  fun q => if q = p then f (g q) else g q

/-- `removeWallBetween`: clears the matching wall pair based on the relative
offset of the two cells; offsets outside the tested cases fall through
silently. -/
def removeWallBetween (g : GridF) (current next : Pos) : GridF :=
  let dx : Int := (next.x : Int) - current.x
  let dy : Int := (next.y : Int) - current.y
  if dx = 1 then
    updateCell (updateCell g current (fun c => { c with walls.right := false }))
      next (fun c => { c with walls.left := false })
  else if dx = -1 then
    updateCell (updateCell g current (fun c => { c with walls.left := false }))
      next (fun c => { c with walls.right := false })
  else if dy = 1 then
    updateCell (updateCell g current (fun c => { c with walls.bottom := false }))
      next (fun c => { c with walls.top := false })
  else if dy = -1 then
    updateCell (updateCell g current (fun c => { c with walls.top := false }))
      next (fun c => { c with walls.bottom := false })
  else g

/-- `initializeGrid`: every cell fully walled, unvisited, not on the spine. -/
def initializeGrid : GridF :=
  fun _ => { walls := ⟨true, true, true, true⟩, visited := false, isSpine := false }

/-- Marking helpers for the `visited`/`isSpine` flags. -/
def setVisited (g : GridF) (p : Pos) (b : Bool) : GridF :=
  updateCell g p (fun c => { c with visited := b })

def setSpine (g : GridF) (p : Pos) (b : Bool) : GridF :=
  updateCell g p (fun c => { c with isSpine := b })

/-- `SpineFirstConfig`: the configuration fields the generator reads
(optional fields are those the source reads with `??` defaults). -/
structure SpineFirstConfig where
  tortuosity : Q
  minTurns : Option Nat
  branchChance : Q
  minBranchSpacing : Option Nat
  minBranchLength : Option Nat
  maxBranchLength : Nat
  subBranchChance : Option Q
  fillRemaining : Bool

/-- The randomness oracle: the `Math.random()` stream, plus the behaviour of
the random-comparator shuffle in `generateDeadEndBranch` (an
engine-defined permutation consuming an engine-defined number of stream
elements). -/
structure Oracle where
  rand : Nat → Q
  shuffle : Nat → List Pos → List Pos
  shuffleCost : Nat → Nat

/-- Every `Math.random()` value lies in `[0,1)`, and the random-comparator
shuffle returns a permutation of its input. -/
def ValidRand (O : Oracle) : Prop :=
  (∀ n, 0 < (O.rand n).den ∧ 0 ≤ O.rand n ∧ O.rand n < 1) ∧
  (∀ n l, (O.shuffle n l).Perm l)

/-- A scored neighbour of `generateSpine`'s random walk. -/
structure ScoredNeighbor where
  cell : Pos
  score : Q
  dir : Dir

/-- `scoredNeighbors.sort((a, b) => b.score - a.score)[0]`: the stable
descending sort puts the first-in-list maximal-score element first. -/
def chooseBest (first : ScoredNeighbor) (rest : List ScoredNeighbor) : ScoredNeighbor :=
  rest.foldl (fun best n => if best.score < n.score then n else best) first

/-- State of the Phase-1 random walk.  `spine` is kept top-first (head =
current cell = `spine[spine.length-1]` of the source).  `iters` counts the
executed loop iterations (it mirrors the source's `iterations` variable). -/
structure SpineSt where
  g : GridF
  spine : List Pos
  turnCount : Nat
  lastDir : Option Dir
  ridx : Nat
  iters : Nat

/-- Result of Phase 1: final grid, random cursor, the spine in source order
(`none` = generation failure), and the final recorded turn/iteration
counters. -/
structure SpineResult where
  g : GridF
  ridx : Nat
  spine : Option (List Pos)
  turnCount : Nat
  iters : Nat

/-- Score one unvisited neighbour (one `Math.random()` draw). -/
def scoreNeighbor (O : Oracle) (cfg : SpineFirstConfig) (goal current : Pos)
    (turnCount : Nat) (lastDir : Option Dir) (ridx : Nat) (n : Pos) : ScoredNeighbor :=
  let minTurns := cfg.minTurns.getD 0
  let direction := getDirection current n
  let score : Q :=
    (if lastDir.isSome ∧ lastDir ≠ some direction ∧ turnCount < minTurns then (10 : Q) else 0)
    - Q.ofNat (manhattanDistance n goal) * ⟨1, 10⟩
    + O.rand ridx * 5
  ⟨n, score, direction⟩

/-- Score all unvisited neighbours in list order, consuming one random value
each (the `.map` in the source). -/
def scoreNeighbors (O : Oracle) (cfg : SpineFirstConfig) (goal current : Pos)
    (turnCount : Nat) (lastDir : Option Dir) (ridx : Nat) :
    List Pos → List ScoredNeighbor
  | [] => []
  | n :: ns =>
    scoreNeighbor O cfg goal current turnCount lastDir ridx n ::
      scoreNeighbors O cfg goal current turnCount lastDir (ridx + 1) ns

/-- The Phase-1 `while` loop of `generateSpine`.  `fuel` is the number of
loop iterations the source's safety cap still allows (`maxIterations -
iterations`); when it is exhausted the source's `iterations >
maxIterations` test returns `null`. -/
def spineLoop (O : Oracle) (cfg : SpineFirstConfig) (goal : Pos)
    (width height : Nat) (minPathLength : Nat) :
    Nat → SpineSt → SpineResult
  | fuel, st =>
    match st.spine with
    | [] => ⟨st.g, st.ridx, none, st.turnCount, st.iters⟩  -- unreachable: spine starts nonempty
    | current :: spineRest =>
      if current = goal then
        -- loop exit: validate the spine
        let spine := st.spine.reverse
        if spine.length < minPathLength then
          ⟨st.g, st.ridx, none, st.turnCount, st.iters⟩
        else if 0 < cfg.minTurns.getD 0 ∧ st.turnCount < cfg.minTurns.getD 0 then
          ⟨st.g, st.ridx, none, st.turnCount, st.iters⟩
        else
          ⟨st.g, st.ridx, some spine, st.turnCount, st.iters⟩
      else
        match fuel with
        | 0 => ⟨st.g, st.ridx, none, st.turnCount, st.iters + 1⟩  -- iteration cap hit
        | fuel + 1 =>
          let neighbors := getUnvisitedNeighbors st.g current width height
          match neighbors with
          | [] =>
            -- backtrack
            if spineRest.isEmpty then
              ⟨st.g, st.ridx, none, st.turnCount, st.iters + 1⟩
            else
              let g := setSpine (setVisited st.g current false) current false
              spineLoop O cfg goal width height minPathLength fuel
                { st with g := g, spine := spineRest, iters := st.iters + 1 }
          | n0 :: ns =>
            let scored0 := scoreNeighbor O cfg goal current st.turnCount st.lastDir st.ridx n0
            let scoredRest := scoreNeighbors O cfg goal current st.turnCount st.lastDir
              (st.ridx + 1) ns
            let chosen := chooseBest scored0 scoredRest
            let turnCount :=
              if st.lastDir.isSome ∧ st.lastDir ≠ some chosen.dir then st.turnCount + 1
              else st.turnCount
            let g := removeWallBetween st.g current chosen.cell
            let g := setSpine (setVisited g chosen.cell true) chosen.cell true
            spineLoop O cfg goal width height minPathLength fuel
              { g := g, spine := chosen.cell :: st.spine, turnCount := turnCount,
                lastDir := some chosen.dir, ridx := st.ridx + neighbors.length,
                iters := st.iters + 1 }

/-- Phase 1, `generateSpine`: biased random walk with backtracking. -/
def generateSpine (O : Oracle) (g : GridF) (start goal : Pos)
    (width height : Nat) (cfg : SpineFirstConfig) (ridx : Nat) : SpineResult :=
  let minPathLength := (Q.ofNat (manhattanDistance start goal) * cfg.tortuosity).ceil.toNat
  let g := setSpine (setVisited g start true) start true
  spineLoop O cfg goal width height minPathLength (width * height * 10)
    { g := g, spine := [start], turnCount := 0, lastDir := none, ridx := ridx, iters := 0 }

/-- Ghost record of one `removeWallBetween` call performed while growing
branches: the pair of cells, and the target's `visited`/`isSpine` flags as
the grid held them at the moment of the call. -/
structure Carve where
  src : Pos
  tgt : Pos
  tgtVisited : Bool
  tgtSpine : Bool
deriving DecidableEq, Repr

/-- `list[Math.floor(Math.random() * list.length)]` (the repeated random
element pick of the source; under `ValidRand` the index is in range). -/
def randPick (O : Oracle) (ridx : Nat) (l : List Pos) (dflt : Pos) : Pos :=
  l.getD (O.rand ridx * Q.ofNat l.length).floor.toNat dflt

/-- `generateLinearDeadEnd`: a purely linear dead-end path, no further
branching.  Returns the final grid, random cursor and the ghost carve log.
The source's `remainingDepth` is an Int that is only ever decremented and
tested with `<= 0`, so it is embedded as the Nat `max remainingDepth 0`. -/
def generateLinearDeadEnd (O : Oracle) (width height : Nat) :
    Nat → GridF → Pos → Nat → GridF × Nat × List Carve
  | 0, g, _, ridx => (g, ridx, [])
  | remainingDepth + 1, g, startCell, ridx =>
    let neighbors := (getUnvisitedNeighbors g startCell width height).filter
      (fun n => !(g n).isSpine)
    if neighbors.isEmpty then (g, ridx, [])
    else
      let next := randPick O ridx neighbors startCell
      let carve : Carve := ⟨startCell, next, (g next).visited, (g next).isSpine⟩
      let g := removeWallBetween g startCell next
      let g := setVisited g next true
      let (g, ridx, carves) :=
        generateLinearDeadEnd O width height remainingDepth g next (ridx + 1)
      (g, ridx, carve :: carves)

/-- Ghost record of one sub-branch spawned by `generateDeadEndBranch`:
which branch cell it grew from, its first cell, and the carves of its
linear body. -/
structure SubSpawn where
  fromCell : Pos
  startCell : Pos
  startCarve : Carve
  bodyCarves : List Carve
deriving Repr

/-- Result of `generateDeadEndBranch`: grid, random cursor, and ghost data
(the source's `branchCells` array, the main-path carve log, and the
sub-branches spawned). -/
structure BranchResult where
  g : GridF
  ridx : Nat
  branchCells : List Pos
  mainCarves : List Carve
  subSpawns : List SubSpawn

/-- The main-branch growth loop of `generateDeadEndBranch`
(`for (let i = 0; i < remainingDepth; i++) … break on dead end`).
`branchCells` accumulates in source order. -/
def branchMainLoop (O : Oracle) (width height : Nat) :
    Nat → GridF → Pos → Nat → GridF × Nat × List Pos × List Carve
  | 0, g, _, ridx => (g, ridx, [], [])
  | steps + 1, g, current, ridx =>
    let neighbors := (getUnvisitedNeighbors g current width height).filter
      (fun n => !(g n).isSpine)
    if neighbors.isEmpty then (g, ridx, [], [])
    else
      let next := randPick O ridx neighbors current
      let carve : Carve := ⟨current, next, (g next).visited, (g next).isSpine⟩
      let g := removeWallBetween g current next
      let g := setVisited g next true
      let (g, ridx, cells, carves) := branchMainLoop O width height steps g next (ridx + 1)
      (g, ridx, next :: cells, carve :: carves)

/-- The sub-branch loop of `generateDeadEndBranch` (`for (const cell of
shuffledCells)`), with `subBranchesAdded` as the counter. -/
def subBranchLoop (O : Oracle) (width height : Nat) (subBranchChance : Q)
    (maxSubBranches : Int) :
    List Pos → Nat → GridF → Nat → GridF × Nat × List SubSpawn
  | [], _, g, ridx => (g, ridx, [])
  | cell :: cells, added, g, ridx =>
    if maxSubBranches ≤ (added : Int) then (g, ridx, [])
    else if subBranchChance < O.rand ridx then
      subBranchLoop O width height subBranchChance maxSubBranches cells added g (ridx + 1)
    else
      let subBranchNeighbors := (getUnvisitedNeighbors g cell width height).filter
        (fun n => !(g n).isSpine)
      if subBranchNeighbors.isEmpty then
        subBranchLoop O width height subBranchChance maxSubBranches cells added g (ridx + 1)
      else
        let subStart := randPick O (ridx + 1) subBranchNeighbors cell
        let startCarve : Carve := ⟨cell, subStart, (g subStart).visited, (g subStart).isSpine⟩
        let g := removeWallBetween g cell subStart
        let g := setVisited g subStart true
        let subBranchLength : Int := 5 + (O.rand (ridx + 2) * (21 : Q)).floor
        let (g, ridx2, bodyCarves) := generateLinearDeadEnd O width height
          (subBranchLength - 1).toNat g subStart (ridx + 3)
        let (g, ridx3, spawns) :=
          subBranchLoop O width height subBranchChance maxSubBranches cells (added + 1) g ridx2
        (g, ridx3, ⟨cell, subStart, startCarve, bodyCarves⟩ :: spawns)

/-- `generateDeadEndBranch`: grow a dead-end branch of the given remaining
depth from `startCell`, then spawn 0–3 linear sub-branches from the
shuffled interior cells.  `remainingDepth` is embedded as in
`generateLinearDeadEnd`. -/
def generateDeadEndBranch (O : Oracle) (width height : Nat) (subBranchChance : Q)
    (remainingDepth : Nat) (g : GridF) (startCell : Pos) (ridx : Nat) : BranchResult :=
  match remainingDepth with
  | 0 => ⟨g, ridx, [], [], []⟩
  | remainingDepth + 1 =>
    let (g, ridx, grown, mainCarves) :=
      branchMainLoop O width height (remainingDepth + 1) g startCell ridx
    let branchCells := startCell :: grown
    if 0 < subBranchChance ∧ 1 < branchCells.length then
      let maxSubBranches : Int := (O.rand ridx * (4 : Q)).floor
      let eligibleCells := branchCells.drop 1
      let shuffledCells := O.shuffle (ridx + 1) eligibleCells
      let (g, ridx2, spawns) := subBranchLoop O width height subBranchChance maxSubBranches
        shuffledCells 0 g (ridx + 1 + O.shuffleCost (ridx + 1))
      ⟨g, ridx2, branchCells, mainCarves, spawns⟩
    else
      ⟨g, ridx, branchCells, mainCarves, []⟩

/-- Result of Phase 2 over the whole spine: grid, cursor, and the carve log
of every wall removal Phase 2 performed (branch connections, branch
bodies, sub-branch connections and bodies). -/
structure BranchesResult where
  g : GridF
  ridx : Nat
  carves : List Carve

/-- The body of `generateBranches`' spine walk for one index `i`. -/
def branchesStep (O : Oracle) (width height : Nat) (cfg : SpineFirstConfig)
    (spine : List Pos) (i : Nat) (lastBranchIndex : Int) (g : GridF) (ridx : Nat) :
    GridF × Nat × Int × List Carve :=
  let minSpacing := cfg.minBranchSpacing.getD 5
  let minBranchLen := cfg.minBranchLength.getD 1
  if (i : Int) - lastBranchIndex < minSpacing then (g, ridx, lastBranchIndex, [])
  else
    let spineCell := spine.getD i ⟨0, 0⟩
    if cfg.branchChance < O.rand ridx then (g, ridx + 1, lastBranchIndex, [])
    else
      let branchStarts := (getUnvisitedNeighbors g spineCell width height).filter
        (fun n => !(g n).isSpine)
      if branchStarts.isEmpty then (g, ridx + 1, lastBranchIndex, [])
      else
        let branchStart := randPick O (ridx + 1) branchStarts spineCell
        let connectCarve : Carve :=
          ⟨spineCell, branchStart, (g branchStart).visited, (g branchStart).isSpine⟩
        let g := removeWallBetween g spineCell branchStart
        let g := setVisited g branchStart true
        let branchLength : Int :=
          minBranchLen +
            (O.rand (ridx + 2) * Q.ofInt ((cfg.maxBranchLength : Int) - minBranchLen + 1)).floor
        let br := generateDeadEndBranch O width height (cfg.subBranchChance.getD 0)
          (branchLength - 1).toNat g branchStart (ridx + 3)
        (br.g, br.ridx, (i : Int),
          connectCarve :: br.mainCarves ++ (br.subSpawns.flatMap
            (fun s => s.startCarve :: s.bodyCarves)))

/-- The index walk of `generateBranches`, threading `lastBranchIndex`. -/
def branchesLoop (O : Oracle) (width height : Nat) (cfg : SpineFirstConfig)
    (spine : List Pos) :
    List Nat → Int → GridF → Nat → BranchesResult
  | [], _, g, ridx => ⟨g, ridx, []⟩
  | i :: is, lastBranchIndex, g, ridx =>
    let (g, ridx, lbi, cs) := branchesStep O width height cfg spine i lastBranchIndex g ridx
    let r := branchesLoop O width height cfg spine is lbi g ridx
    ⟨r.g, r.ridx, cs ++ r.carves⟩

/-- Phase 2, `generateBranches`: walk the spine interior
(`for (let i = 1; i < spine.length - 1; i++)`) spawning dead-end branches;
`lastBranchIndex` starts at `-minSpacing`. -/
def generateBranches (O : Oracle) (g : GridF) (spine : List Pos)
    (width height : Nat) (cfg : SpineFirstConfig) (ridx : Nat) : BranchesResult :=
  let minSpacing := cfg.minBranchSpacing.getD 5
  branchesLoop O width height cfg spine (List.range' 1 (spine.length - 2))
    (-(minSpacing : Int)) g ridx

/-- The row-major enumeration of a `width × height` grid (`for y … for x`). -/
def gridPositions (width height : Nat) : List Pos :=
  (List.range height).flatMap (fun y => (List.range width).map (fun x => ⟨x, y⟩))

/-- The `while (stack.length > 0)` loop of `fillAreaDFS`.  `fuel` bounds the
iterations; each iteration either marks a fresh cell (push) or shrinks the
stack (pop), so `2*width*height + 1` fuel always suffices and the source
loop terminates within it. -/
def dfsLoop (O : Oracle) (width height : Nat) :
    Nat → List Pos → GridF → Nat → GridF × Nat
  | 0, _, g, ridx => (g, ridx)
  | _ + 1, [], g, ridx => (g, ridx)
  | fuel + 1, current :: stack, g, ridx =>
    let unvisitedNeighbors := getUnvisitedNeighbors g current width height
    if unvisitedNeighbors.isEmpty then
      dfsLoop O width height fuel stack g ridx
    else
      let next := randPick O ridx unvisitedNeighbors current
      let g := removeWallBetween g current next
      let g := setVisited g next true
      dfsLoop O width height fuel (next :: current :: stack) g (ridx + 1)

/-- `fillAreaDFS`: standard DFS fill from `startCell`. -/
def fillAreaDFS (O : Oracle) (g : GridF) (startCell : Pos) (width height : Nat)
    (ridx : Nat) : GridF × Nat :=
  dfsLoop O width height (2 * (width * height) + 1) [startCell] g ridx

/-- First sweep of `fillRemainingAreas`: connect each still-unvisited cell
that touches a visited cell, then DFS-fill from it. -/
def fillPass1 (O : Oracle) (width height : Nat) :
    List Pos → GridF → Nat → GridF × Nat
  | [], g, ridx => (g, ridx)
  | p :: ps, g, ridx =>
    if (g p).visited then fillPass1 O width height ps g ridx
    else
      let visitedNeighbors := (getNeighbors p width height).filter (fun n => (g n).visited)
      if visitedNeighbors.isEmpty then fillPass1 O width height ps g ridx
      else
        let connector := randPick O ridx visitedNeighbors p
        let g := removeWallBetween g connector p
        let g := setVisited g p true
        let (g, ridx) := fillAreaDFS O g p width height (ridx + 1)
        fillPass1 O width height ps g ridx

/-- Second sweep of `fillRemainingAreas`: force-fill any still-isolated
region, then try to connect its seed to a visited neighbour. -/
def fillPass2 (O : Oracle) (width height : Nat) :
    List Pos → GridF → Nat → GridF × Nat
  | [], g, ridx => (g, ridx)
  | p :: ps, g, ridx =>
    if (g p).visited then fillPass2 O width height ps g ridx
    else
      let g := setVisited g p true
      let (g, ridx) := fillAreaDFS O g p width height ridx
      let visitedNeighbors := (getNeighbors p width height).filter (fun n => (g n).visited)
      if visitedNeighbors.isEmpty then fillPass2 O width height ps g ridx
      else
        let connector := randPick O ridx visitedNeighbors p
        let g := removeWallBetween g connector p
        fillPass2 O width height ps g (ridx + 1)

/-- Phase 3, `fillRemainingAreas`: both sweeps in row-major order. -/
def fillRemainingAreas (O : Oracle) (g : GridF) (width height : Nat) (ridx : Nat) :
    GridF × Nat :=
  let (g, ridx) := fillPass1 O width height (gridPositions width height) g ridx
  fillPass2 O width height (gridPositions width height) g ridx

/-- The walls-only view of the generation grid; `toOutputGrid` strips the
internal `visited`/`isSpine` flags, leaving coordinates and walls
(coordinates are the keys of this representation). -/
def toOutputWalls (g : GridF) : Pos → Walls := fun p => (g p).walls

/-- The whole pipeline with all internal state exposed for the proofs. -/
structure PipeResult where
  spineRes : SpineResult
  branchRes : Option BranchesResult
  finalGrid : Option GridF

/-- `generateSpineFirstMaze`, instrumented: Phase 1, then on success
Phase 2 and (if configured) Phase 3. -/
def generateSpineFirstMazeRun (O : Oracle) (width height : Nat)
    (start goal : Pos) (cfg : SpineFirstConfig) : PipeResult :=
  let g0 := initializeGrid
  let sr := generateSpine O g0 start goal width height cfg 0
  match sr.spine with
  | none => ⟨sr, none, none⟩
  | some spine =>
    let br := generateBranches O sr.g spine width height cfg sr.ridx
    let (g, _) :=
      if cfg.fillRemaining then fillRemainingAreas O br.g width height br.ridx
      else (br.g, br.ridx)
    ⟨sr, some br, some g⟩

/-- `generateSpineFirstMaze`: the output grid (walls only) or `null`. -/
def generateSpineFirstMaze (O : Oracle) (width height : Nat)
    (start goal : Pos) (cfg : SpineFirstConfig) : Option (Pos → Walls) :=
  (generateSpineFirstMazeRun O width height start goal cfg).finalGrid.map toOutputWalls

/-! ## The open-passage graph -/

/-- Two cells are joined by an open passage: they are axis-adjacent and the
wall of the first facing the second is absent. -/
def openAdj (W : Pos → Walls) (p q : Pos) : Prop :=
  (q.x = p.x + 1 ∧ q.y = p.y ∧ (W p).right = false) ∨
  (p.x = q.x + 1 ∧ q.y = p.y ∧ (W p).left = false) ∨
  (q.y = p.y + 1 ∧ q.x = p.x ∧ (W p).bottom = false) ∨
  (p.y = q.y + 1 ∧ q.x = p.x ∧ (W p).top = false)

instance (W : Pos → Walls) (p q : Pos) : Decidable (openAdj W p q) :=
  inferInstanceAs (Decidable ((q.x = p.x + 1 ∧ q.y = p.y ∧ (W p).right = false) ∨
    (p.x = q.x + 1 ∧ q.y = p.y ∧ (W p).left = false) ∨
    (q.y = p.y + 1 ∧ q.x = p.x ∧ (W p).bottom = false) ∨
    (p.y = q.y + 1 ∧ q.x = p.x ∧ (W p).top = false)))

/-- "The shortest path from `start` to `goal` has at least `minLen` moves":
every open-passage walk between them takes at least `minLen` moves. -/
def ShortestPathMeets (W : Pos → Walls) (start goal : Pos) (minLen : Nat) : Prop :=
  ∀ walk : List Pos, walk.head? = some start → walk.getLast? = some goal →
    walk.Chain' (openAdj W) → minLen ≤ walk.length - 1

/-- A simple cycle in the open-passage graph. -/
def IsSimpleCycle (W : Pos → Walls) (p : List Pos) : Prop :=
  3 ≤ p.length ∧ p.Nodup ∧ p.Chain' (openAdj W) ∧
  ∃ a b, p.head? = some a ∧ p.getLast? = some b ∧ openAdj W b a

/-- The open-passage graph is acyclic. -/
def AcyclicW (W : Pos → Walls) : Prop :=
  ∀ p : List Pos, ¬ IsSimpleCycle W p

/-- Reachability through open passages. -/
def ReachW (W : Pos → Walls) (p q : Pos) : Prop :=
  Relation.ReflTransGen (openAdj W) p q

/-- The offset between two positions is one of the four unit deltas. -/
def UnitDelta (p q : Pos) : Prop := manhattanDistance p q = 1

instance (p q : Pos) : Decidable (UnitDelta p q) :=
  inferInstanceAs (Decidable (manhattanDistance p q = 1))

/-! ## `toOutputGrid` over the source's array representation

The output conversion is the one place whose claim is about the `x`/`y`
fields stored inside each cell, so it is embedded over the literal
list-of-rows representation. -/

/-- A generation cell as stored in the source arrays (with coordinates). -/
structure CellXY where
  x : Nat
  y : Nat
  walls : Walls
  visited : Bool
  isSpine : Bool
deriving DecidableEq, Repr

/-- An output cell: coordinates and a fresh copy of the wall flags. -/
structure OutCellXY where
  x : Nat
  y : Nat
  walls : Walls
deriving DecidableEq, Repr

/-- `toOutputGrid`: map every row, keeping `x`, `y` and `walls` and
dropping `visited`/`isSpine`. -/
def toOutputGrid (grid : List (List CellXY)) : List (List OutCellXY) :=
  grid.map (fun row => row.map (fun c => ⟨c.x, c.y, c.walls⟩))

/-! ## The evaluation-outcome assignment (`rescore-maze.ts` / `retry.ts`) -/

/-- `EvaluationOutcome` (the values the scoring code assigns). -/
inductive EvaluationOutcome where
  | success | failure | invalid_move | constraint_violated
deriving DecidableEq, Repr

/-- The outcome assignment both CLI scorers apply to a validation result:
`invalid_move` when the path is invalid, otherwise `constraint_violated` /
`success` split on `constraintsSatisfied === false` when the goal is
reached, otherwise `failure`. -/
def newOutcome (isValid reachesGoal : Bool) (constraintsSatisfied : Option Bool) :
    EvaluationOutcome :=
  if !isValid then .invalid_move
  else if reachesGoal then
    if constraintsSatisfied = some false then .constraint_violated else .success
  else .failure

/-! ## Concrete executions used as counterexamples and witnesses -/

/-- Oracle of the first concrete execution: a 3×3 generation whose spine
wiggles once and has exactly `minPathLength` cells. -/
def exO1 : Oracle :=
  { rand := fun n => if n ∈ [1, 2, 4] then ⟨9, 10⟩ else if n ∈ [8, 9, 10] then ⟨1, 2⟩ else ⟨0, 1⟩,
    shuffle := fun _ l => l, shuffleCost := fun _ => 0 }

/-- Config of the first concrete execution: tortuosity 2.5, no branches,
no fill. -/
def cfg1 : SpineFirstConfig :=
  { tortuosity := ⟨5, 2⟩, minTurns := none, branchChance := ⟨0, 1⟩, minBranchSpacing := none,
    minBranchLength := none, maxBranchLength := 1, subBranchChance := none,
    fillRemaining := false }

/-- The final grid of the first concrete execution (the Phase-1 walk
`(0,0) → (0,1) → (1,1) → (1,0) → (2,0)`; Phase 2 carves nothing). -/
def cexGrid1 : GridF :=
  setSpine (setVisited (removeWallBetween
    (setSpine (setVisited (removeWallBetween
      (setSpine (setVisited (removeWallBetween
        (setSpine (setVisited (removeWallBetween
          (setSpine (setVisited initializeGrid ⟨0, 0⟩ true) ⟨0, 0⟩ true)
          ⟨0, 0⟩ ⟨0, 1⟩) ⟨0, 1⟩ true) ⟨0, 1⟩ true)
        ⟨0, 1⟩ ⟨1, 1⟩) ⟨1, 1⟩ true) ⟨1, 1⟩ true)
      ⟨1, 1⟩ ⟨1, 0⟩) ⟨1, 0⟩ true) ⟨1, 0⟩ true)
    ⟨1, 0⟩ ⟨2, 0⟩) ⟨2, 0⟩ true) ⟨2, 0⟩ true

/-- The spine of the first concrete execution. -/
def run1Spine : List Pos := [⟨0, 0⟩, ⟨0, 1⟩, ⟨1, 1⟩, ⟨1, 0⟩, ⟨2, 0⟩]

/-- Oracle of the second concrete execution: a 4×3 generation in which the
Phase-1 walk gets stuck at `(0,2)`, backtracks (leaving the wall towards
`(1,2)` open), and a Phase-2 branch later re-enters `(0,2)` from `(0,1)`,
closing a cycle. -/
def exO2 : Oracle :=
  { rand := fun n => if n ∈ [1, 2, 6, 8, 9, 11, 13, 15] then ⟨9, 10⟩ else ⟨0, 1⟩,
    shuffle := fun _ l => l, shuffleCost := fun _ => 0 }

/-- Config of the second concrete execution: branch everywhere
(`branchChance = 1`, spacing 1) with single-cell branches. -/
def cfg2 : SpineFirstConfig :=
  { tortuosity := ⟨1, 1⟩, minTurns := none, branchChance := ⟨1, 1⟩, minBranchSpacing := some 1,
    minBranchLength := some 1, maxBranchLength := 1, subBranchChance := none,
    fillRemaining := false }

/-- The grid of the second concrete execution after Phase 1 (walk
`(0,0) → (0,1) → (1,1) → (1,2) → (0,2)`, stuck at `(0,2)`, backtrack,
then `(1,2) → (2,2) → (2,1) → (2,0) → (3,0)`). -/
def run2SpineGrid : GridF :=
  (setSpine (setVisited (removeWallBetween
    (setSpine (setVisited (removeWallBetween
    (setSpine (setVisited (removeWallBetween
    (setSpine (setVisited (removeWallBetween
    (setSpine (setVisited
    (setSpine (setVisited (removeWallBetween
    (setSpine (setVisited (removeWallBetween
    (setSpine (setVisited (removeWallBetween
    (setSpine (setVisited (removeWallBetween
    (setSpine (setVisited initializeGrid ⟨0, 0⟩ true) ⟨0, 0⟩ true)
    ⟨0, 0⟩ ⟨0, 1⟩) ⟨0, 1⟩ true) ⟨0, 1⟩ true)
    ⟨0, 1⟩ ⟨1, 1⟩) ⟨1, 1⟩ true) ⟨1, 1⟩ true)
    ⟨1, 1⟩ ⟨1, 2⟩) ⟨1, 2⟩ true) ⟨1, 2⟩ true)
    ⟨1, 2⟩ ⟨0, 2⟩) ⟨0, 2⟩ true) ⟨0, 2⟩ true)
    ⟨0, 2⟩ false) ⟨0, 2⟩ false)
    ⟨1, 2⟩ ⟨2, 2⟩) ⟨2, 2⟩ true) ⟨2, 2⟩ true)
    ⟨2, 2⟩ ⟨2, 1⟩) ⟨2, 1⟩ true) ⟨2, 1⟩ true)
    ⟨2, 1⟩ ⟨2, 0⟩) ⟨2, 0⟩ true) ⟨2, 0⟩ true)
    ⟨2, 0⟩ ⟨3, 0⟩) ⟨3, 0⟩ true) ⟨3, 0⟩ true)

/-- The final grid of the second concrete execution: Phase 2 connects the
four branches `(0,1)→(0,2)`, `(1,1)→(1,0)`, `(2,2)→(3,2)`, `(2,1)→(3,1)`
(each of length 1).  The branch into `(0,2)` re-enters the cell abandoned
by Phase-1 backtracking, whose wall towards `(1,2)` is still open. -/
def cexGrid2 : GridF :=
  (setVisited (removeWallBetween
    (setVisited (removeWallBetween
    (setVisited (removeWallBetween
    (setVisited (removeWallBetween
    (setSpine (setVisited (removeWallBetween
    (setSpine (setVisited (removeWallBetween
    (setSpine (setVisited (removeWallBetween
    (setSpine (setVisited (removeWallBetween
    (setSpine (setVisited
    (setSpine (setVisited (removeWallBetween
    (setSpine (setVisited (removeWallBetween
    (setSpine (setVisited (removeWallBetween
    (setSpine (setVisited (removeWallBetween
    (setSpine (setVisited initializeGrid ⟨0, 0⟩ true) ⟨0, 0⟩ true)
    ⟨0, 0⟩ ⟨0, 1⟩) ⟨0, 1⟩ true) ⟨0, 1⟩ true)
    ⟨0, 1⟩ ⟨1, 1⟩) ⟨1, 1⟩ true) ⟨1, 1⟩ true)
    ⟨1, 1⟩ ⟨1, 2⟩) ⟨1, 2⟩ true) ⟨1, 2⟩ true)
    ⟨1, 2⟩ ⟨0, 2⟩) ⟨0, 2⟩ true) ⟨0, 2⟩ true)
    ⟨0, 2⟩ false) ⟨0, 2⟩ false)
    ⟨1, 2⟩ ⟨2, 2⟩) ⟨2, 2⟩ true) ⟨2, 2⟩ true)
    ⟨2, 2⟩ ⟨2, 1⟩) ⟨2, 1⟩ true) ⟨2, 1⟩ true)
    ⟨2, 1⟩ ⟨2, 0⟩) ⟨2, 0⟩ true) ⟨2, 0⟩ true)
    ⟨2, 0⟩ ⟨3, 0⟩) ⟨3, 0⟩ true) ⟨3, 0⟩ true)
    ⟨0, 1⟩ ⟨0, 2⟩) ⟨0, 2⟩ true)
    ⟨1, 1⟩ ⟨1, 0⟩) ⟨1, 0⟩ true)
    ⟨2, 2⟩ ⟨3, 2⟩) ⟨3, 2⟩ true)
    ⟨2, 1⟩ ⟨3, 1⟩) ⟨3, 1⟩ true)

/-- The spine of the second concrete execution. -/
def run2Spine : List Pos :=
  [⟨0, 0⟩, ⟨0, 1⟩, ⟨1, 1⟩, ⟨1, 2⟩, ⟨2, 2⟩, ⟨2, 1⟩, ⟨2, 0⟩, ⟨3, 0⟩]

/-- The Phase-2 carve log of the second concrete execution. -/
def run2Carves : List Carve :=
  [⟨⟨0, 1⟩, ⟨0, 2⟩, false, false⟩, ⟨⟨1, 1⟩, ⟨1, 0⟩, false, false⟩,
   ⟨⟨2, 2⟩, ⟨3, 2⟩, false, false⟩, ⟨⟨2, 1⟩, ⟨3, 1⟩, false, false⟩]


/-- The grid of the third concrete execution after Phases 1–2 (walk
`(0,0) → (1,0) → (1,1)` on the 2×2 grid, no branches). -/
def run3SpineGrid : GridF :=
  (setSpine (setVisited (removeWallBetween
    (setSpine (setVisited (removeWallBetween
    (setSpine (setVisited initializeGrid ⟨0, 0⟩ true) ⟨0, 0⟩ true)
    ⟨0, 0⟩ ⟨1, 0⟩) ⟨1, 0⟩ true) ⟨1, 0⟩ true)
    ⟨1, 0⟩ ⟨1, 1⟩) ⟨1, 1⟩ true) ⟨1, 1⟩ true)

/-- The final grid of the third concrete execution: Phase 3 connects the
one unvisited cell `(0,1)` to `(0,0)`. -/
def run3Grid : GridF :=
  (setVisited (removeWallBetween
    (setSpine (setVisited (removeWallBetween
    (setSpine (setVisited (removeWallBetween
    (setSpine (setVisited initializeGrid ⟨0, 0⟩ true) ⟨0, 0⟩ true)
    ⟨0, 0⟩ ⟨1, 0⟩) ⟨1, 0⟩ true) ⟨1, 0⟩ true)
    ⟨1, 0⟩ ⟨1, 1⟩) ⟨1, 1⟩ true) ⟨1, 1⟩ true)
    ⟨0, 0⟩ ⟨0, 1⟩) ⟨0, 1⟩ true)

/-- Oracle of the third concrete execution: a 2×2 generation with
`fillRemaining` enabled (used as witness input for the fill claims). -/
def exO3 : Oracle :=
  { rand := fun n => if n = 0 then ⟨9, 10⟩ else if n = 3 then ⟨1, 2⟩ else ⟨0, 1⟩,
    shuffle := fun _ l => l, shuffleCost := fun _ => 0 }

/-- Config of the third concrete execution. -/
def cfg3 : SpineFirstConfig :=
  { tortuosity := ⟨1, 1⟩, minTurns := none, branchChance := ⟨0, 1⟩, minBranchSpacing := none,
    minBranchLength := none, maxBranchLength := 1, subBranchChance := none,
    fillRemaining := true }

/-- Wall symmetry: every adjacent pair agrees on its shared wall. -/
def WallSymm (W : Pos → Walls) : Prop :=
  ∀ p : Pos, (W p).right = (W ⟨p.x + 1, p.y⟩).left ∧
    (W p).bottom = (W ⟨p.x, p.y + 1⟩).top

/-- A carve log that forms a single linear corridor starting at `p`: each
carve starts where the previous one ended and moves to an adjacent cell. -/
def ChainCarves : Pos → List Carve → Prop
  | _, [] => True
  | p, c :: cs => c.src = p ∧ UnitDelta c.src c.tgt ∧ ChainCarves c.tgt cs

/-- In-bounds positions of a `width × height` grid. -/
def InBounds (width height : Nat) (p : Pos) : Prop := p.x < width ∧ p.y < height

/-- Pointwise: every passage open in `W` is also open in `W\'` (the
generator only ever removes walls). -/
def OpenLe (W W' : Pos → Walls) : Prop :=
  ∀ p : Pos, ((W p).top = false → (W' p).top = false) ∧
    ((W p).right = false → (W' p).right = false) ∧
    ((W p).bottom = false → (W' p).bottom = false) ∧
    ((W p).left = false → (W' p).left = false)

/-- Every visited cell of the working grid is reachable from `start`
through open passages. -/
def StartInv (start : Pos) (g : GridF) : Prop :=
  ∀ c : Pos, (g c).visited = true → ReachW (toOutputWalls g) start c

/-- The number of still-unvisited cells of the grid. -/
def unvisitedCount (g : GridF) (width height : Nat) : Nat :=
  ((gridPositions width height).filter (fun p => !(g p).visited)).length

/-! ## One-step unfolding lemmas

These drive the symbolic execution of the concrete oracle runs: each lemma
unfolds one loop iteration, taking the decidable outcomes of that iteration
as hypotheses so that a whole run is a chain of cheap rewrites. -/

theorem generateSpine_eq (O : Oracle) (g : GridF) (start goal : Pos)
    (width height : Nat) (cfg : SpineFirstConfig) (ridx : Nat) :
    generateSpine O g start goal width height cfg ridx =
      spineLoop O cfg goal width height
        ((Q.ofNat (manhattanDistance start goal) * cfg.tortuosity).ceil.toNat)
        (width * height * 10)
        ⟨setSpine (setVisited g start true) start true, [start], 0, none, ridx, 0⟩ := rfl

theorem spineLoop_move (n0 c : Pos) (ns : List Pos) (d : Dir)
    (fuel tc' ridx' iters' : Nat)
    {O : Oracle} {cfg : SpineFirstConfig} {goal : Pos} {w h m FB : Nat}
    {g : GridF} {current : Pos} {rest : List Pos} {tc : Nat} {ld : Option Dir}
    {ridx iters : Nat}
    (hFB : FB = fuel + 1)
    (hgoal : current ≠ goal)
    (hn : getUnvisitedNeighbors g current w h = n0 :: ns)
    (hc : (chooseBest (scoreNeighbor O cfg goal current tc ld ridx n0)
      (scoreNeighbors O cfg goal current tc ld (ridx + 1) ns)).cell = c)
    (hd : (chooseBest (scoreNeighbor O cfg goal current tc ld ridx n0)
      (scoreNeighbors O cfg goal current tc ld (ridx + 1) ns)).dir = d)
    (htc : (if ld.isSome ∧ ld ≠ some d then tc + 1 else tc) = tc')
    (hridx : ridx + (n0 :: ns).length = ridx')
    (hiters : iters + 1 = iters') :
    spineLoop O cfg goal w h m FB ⟨g, current :: rest, tc, ld, ridx, iters⟩ =
    spineLoop O cfg goal w h m fuel
      ⟨setSpine (setVisited (removeWallBetween g current c) c true) c true,
       c :: current :: rest, tc', some d, ridx', iters'⟩ := by
  subst hFB htc hridx hiters
  conv_lhs => rw [spineLoop]
  simp only [if_neg hgoal, hn, hc, hd]

theorem spineLoop_backtrack (fuel iters' : Nat)
    {O : Oracle} {cfg : SpineFirstConfig} {goal : Pos} {w h m FB : Nat}
    {g : GridF} {current r0 : Pos} {rrest : List Pos} {tc : Nat} {ld : Option Dir}
    {ridx iters : Nat}
    (hFB : FB = fuel + 1)
    (hgoal : current ≠ goal)
    (hn : getUnvisitedNeighbors g current w h = [])
    (hiters : iters + 1 = iters') :
    spineLoop O cfg goal w h m FB ⟨g, current :: r0 :: rrest, tc, ld, ridx, iters⟩ =
    spineLoop O cfg goal w h m fuel
      ⟨setSpine (setVisited g current false) current false, r0 :: rrest,
       tc, ld, ridx, iters'⟩ := by
  subst hFB hiters
  conv_lhs => rw [spineLoop]
  simp only [if_neg hgoal, hn, List.isEmpty_cons, Bool.false_eq_true, if_false]

theorem spineLoop_accept (sp : List Pos)
    {O : Oracle} {cfg : SpineFirstConfig} {w h m FB : Nat}
    {g : GridF} {goal : Pos} {rest : List Pos} {tc : Nat} {ld : Option Dir}
    {ridx iters : Nat}
    (hrev : (goal :: rest).reverse = sp)
    (hlen : ¬ sp.length < m)
    (hturn : ¬ (0 < cfg.minTurns.getD 0 ∧ tc < cfg.minTurns.getD 0)) :
    spineLoop O cfg goal w h m FB ⟨g, goal :: rest, tc, ld, ridx, iters⟩ =
    ⟨g, ridx, some sp, tc, iters⟩ := by
  conv_lhs => rw [spineLoop]
  simp only [eq_self_iff_true, if_true, hrev, if_neg hlen, if_neg hturn]

theorem generateBranches_eq (O : Oracle) (g : GridF) (spine : List Pos)
    (width height : Nat) (cfg : SpineFirstConfig) (ridx : Nat) :
    generateBranches O g spine width height cfg ridx =
    branchesLoop O width height cfg spine (List.range' 1 (spine.length - 2))
      (-((cfg.minBranchSpacing.getD 5 : Nat) : Int)) g ridx := rfl

theorem branchesLoop_nil {O : Oracle} {w h : Nat} {cfg : SpineFirstConfig}
    {spine : List Pos} {lbi : Int} {g : GridF} {ridx : Nat} :
    branchesLoop O w h cfg spine [] lbi g ridx = ⟨g, ridx, []⟩ := rfl

theorem branchesLoop_skip_spacing {O : Oracle} {w h : Nat} {cfg : SpineFirstConfig}
    {spine : List Pos} {i : Nat} {is : List Nat} {lbi : Int} {g : GridF} {ridx : Nat}
    (hsp : (i : Int) - lbi < ((cfg.minBranchSpacing.getD 5 : Nat) : Int)) :
    branchesLoop O w h cfg spine (i :: is) lbi g ridx =
    branchesLoop O w h cfg spine is lbi g ridx := by
  rw [branchesLoop]
  simp only [branchesStep, if_pos hsp, List.nil_append]

theorem branchesLoop_skip_chance (ridx' : Nat) {O : Oracle} {w h : Nat}
    {cfg : SpineFirstConfig} {spine : List Pos} {i : Nat} {is : List Nat}
    {lbi : Int} {g : GridF} {ridx : Nat}
    (hsp : ¬ ((i : Int) - lbi < ((cfg.minBranchSpacing.getD 5 : Nat) : Int)))
    (hch : cfg.branchChance < O.rand ridx)
    (hridx : ridx + 1 = ridx') :
    branchesLoop O w h cfg spine (i :: is) lbi g ridx =
    branchesLoop O w h cfg spine is lbi g ridx' := by
  subst hridx
  rw [branchesLoop]
  simp only [branchesStep, if_neg hsp, if_pos hch, List.nil_append]

theorem branchesLoop_skip_empty (sc : Pos) (ridx' : Nat) {O : Oracle} {w h : Nat}
    {cfg : SpineFirstConfig} {spine : List Pos} {i : Nat} {is : List Nat}
    {lbi : Int} {g : GridF} {ridx : Nat}
    (hsp : ¬ ((i : Int) - lbi < ((cfg.minBranchSpacing.getD 5 : Nat) : Int)))
    (hsc : spine.getD i ⟨0, 0⟩ = sc)
    (hch : ¬ (cfg.branchChance < O.rand ridx))
    (hbs : (getUnvisitedNeighbors g sc w h).filter (fun n => !(g n).isSpine) = [])
    (hridx : ridx + 1 = ridx') :
    branchesLoop O w h cfg spine (i :: is) lbi g ridx =
    branchesLoop O w h cfg spine is lbi g ridx' := by
  subst hridx
  rw [branchesLoop]
  simp only [branchesStep, if_neg hsp, hsc, if_neg hch, hbs, List.isEmpty_nil, if_pos,
    List.nil_append]

theorem branchesLoop_fire0 (sc b0 bst : Pos) (bs : List Pos) (cv : Carve) (ridx' : Nat)
    {O : Oracle} {w h : Nat} {cfg : SpineFirstConfig} {spine : List Pos}
    {i : Nat} {is : List Nat} {lbi : Int} {g : GridF} {ridx : Nat}
    (hsp : ¬ ((i : Int) - lbi < ((cfg.minBranchSpacing.getD 5 : Nat) : Int)))
    (hsc : spine.getD i ⟨0, 0⟩ = sc)
    (hch : ¬ (cfg.branchChance < O.rand ridx))
    (hbs : (getUnvisitedNeighbors g sc w h).filter (fun n => !(g n).isSpine) = b0 :: bs)
    (hpick : randPick O (ridx + 1) (b0 :: bs) sc = bst)
    (hcv : Carve.mk sc bst ((g bst).visited) ((g bst).isSpine) = cv)
    (hdep : (((cfg.minBranchLength.getD 1 : Nat) : Int) +
      (O.rand (ridx + 2) * Q.ofInt ((cfg.maxBranchLength : Int) -
        ((cfg.minBranchLength.getD 1 : Nat) : Int) + 1)).floor - 1).toNat = 0)
    (hridx : ridx + 3 = ridx') :
    branchesLoop O w h cfg spine (i :: is) lbi g ridx =
    ⟨(branchesLoop O w h cfg spine is (i : Int)
        (setVisited (removeWallBetween g sc bst) bst true) ridx').g,
     (branchesLoop O w h cfg spine is (i : Int)
        (setVisited (removeWallBetween g sc bst) bst true) ridx').ridx,
     cv :: (branchesLoop O w h cfg spine is (i : Int)
        (setVisited (removeWallBetween g sc bst) bst true) ridx').carves⟩ := by
  subst hridx hcv
  rw [branchesLoop]
  simp only [branchesStep, if_neg hsp, hsc, if_neg hch, hbs, List.isEmpty_cons,
    Bool.false_eq_true, if_false, hpick, hdep, generateDeadEndBranch,
    List.flatMap_nil, List.append_nil, List.nil_append, List.singleton_append]

theorem dfsLoop_stop (fuel : Nat) {O : Oracle} {w h FB : Nat} {g : GridF} {ridx : Nat}
    (hFB : FB = fuel + 1) :
    dfsLoop O w h FB [] g ridx = (g, ridx) := by
  subst hFB; rw [dfsLoop]

theorem dfsLoop_pop (fuel : Nat) {O : Oracle} {w h FB : Nat} {current : Pos}
    {stack : List Pos} {g : GridF} {ridx : Nat}
    (hFB : FB = fuel + 1)
    (hn : getUnvisitedNeighbors g current w h = []) :
    dfsLoop O w h FB (current :: stack) g ridx = dfsLoop O w h fuel stack g ridx := by
  subst hFB
  rw [dfsLoop]
  simp only [hn, List.isEmpty_nil, if_pos]

theorem fillAreaDFS_eq (O : Oracle) (g : GridF) (s : Pos) (w h ridx : Nat) :
    fillAreaDFS O g s w h ridx = dfsLoop O w h (2 * (w * h) + 1) [s] g ridx := rfl

theorem fillPass1_nil {O : Oracle} {w h : Nat} {g : GridF} {ridx : Nat} :
    fillPass1 O w h [] g ridx = (g, ridx) := rfl

theorem fillPass1_visited {O : Oracle} {w h : Nat} {p : Pos} {ps : List Pos}
    {g : GridF} {ridx : Nat} (hv : (g p).visited = true) :
    fillPass1 O w h (p :: ps) g ridx = fillPass1 O w h ps g ridx := by
  rw [fillPass1]
  simp only [hv, if_pos]

theorem fillPass1_connect (v0 conn : Pos) (vs : List Pos) (g2 : GridF) (ridx2 : Nat)
    {O : Oracle} {w h : Nat} {p : Pos} {ps : List Pos} {g : GridF} {ridx : Nat}
    (hv : (g p).visited = false)
    (hvn : (getNeighbors p w h).filter (fun n => (g n).visited) = v0 :: vs)
    (hpick : randPick O ridx (v0 :: vs) p = conn)
    (hdfs : fillAreaDFS O (setVisited (removeWallBetween g conn p) p true) p w h
      (ridx + 1) = (g2, ridx2)) :
    fillPass1 O w h (p :: ps) g ridx = fillPass1 O w h ps g2 ridx2 := by
  rw [fillPass1]
  simp only [hv, Bool.false_eq_true, if_false, hvn, List.isEmpty_cons, hpick, hdfs]

theorem fillPass2_nil {O : Oracle} {w h : Nat} {g : GridF} {ridx : Nat} :
    fillPass2 O w h [] g ridx = (g, ridx) := rfl

theorem fillPass2_visited {O : Oracle} {w h : Nat} {p : Pos} {ps : List Pos}
    {g : GridF} {ridx : Nat} (hv : (g p).visited = true) :
    fillPass2 O w h (p :: ps) g ridx = fillPass2 O w h ps g ridx := by
  rw [fillPass2]
  simp only [hv, if_pos]

theorem fillRemainingAreas_of (g1 : GridF) (r1 : Nat) {O : Oracle} {g : GridF}
    {w h ridx : Nat}
    (h1 : fillPass1 O w h (gridPositions w h) g ridx = (g1, r1)) :
    fillRemainingAreas O g w h ridx = fillPass2 O w h (gridPositions w h) g1 r1 := by
  rw [fillRemainingAreas]
  simp only [h1]

theorem generateSpineFirstMazeRun_of {O : Oracle} {w h : Nat} {start goal : Pos}
    {cfg : SpineFirstConfig} (gs : GridF) (rs : Nat) (sp : List Pos) (tc it : Nat)
    (br : BranchesResult) (gf : GridF) (rf : Nat)
    (hsr : generateSpine O initializeGrid start goal w h cfg 0 = ⟨gs, rs, some sp, tc, it⟩)
    (hbr : generateBranches O gs sp w h cfg rs = br)
    (hfill : (if cfg.fillRemaining then fillRemainingAreas O br.g w h br.ridx
      else (br.g, br.ridx)) = (gf, rf)) :
    generateSpineFirstMazeRun O w h start goal cfg =
    ⟨⟨gs, rs, some sp, tc, it⟩, some br, some gf⟩ := by
  rw [generateSpineFirstMazeRun, hsr]
  simp only [hbr, hfill]

/-! ## The concrete executions, evaluated -/

theorem run1_spinelem :
    generateSpine exO1 initializeGrid ⟨0, 0⟩ ⟨2, 0⟩ 3 3 cfg1 0 =
    ⟨cexGrid1, 8, some run1Spine, 3, 4⟩ := by
  rw [generateSpine_eq]
  rw [spineLoop_move ⟨1, 0⟩ ⟨0, 1⟩ [⟨0, 1⟩] .down 89 0 2 1
    (by decide) (by decide) (by decide) (by decide) (by decide) (by decide) (by decide)
    (by decide)]
  rw [spineLoop_move ⟨1, 1⟩ ⟨1, 1⟩ [⟨0, 2⟩] .right 88 1 4 2
    (by decide) (by decide) (by decide) (by decide) (by decide) (by decide) (by decide)
    (by decide)]
  rw [spineLoop_move ⟨1, 0⟩ ⟨1, 0⟩ [⟨2, 1⟩, ⟨1, 2⟩] .up 87 2 7 3
    (by decide) (by decide) (by decide) (by decide) (by decide) (by decide) (by decide)
    (by decide)]
  rw [spineLoop_move ⟨2, 0⟩ ⟨2, 0⟩ [] .right 86 3 8 4
    (by decide) (by decide) (by decide) (by decide) (by decide) (by decide) (by decide)
    (by decide)]
  rw [spineLoop_accept run1Spine (by decide) (by decide) (by decide)]
  rfl

theorem run1_branches :
    generateBranches exO1 cexGrid1 run1Spine 3 3 cfg1 8 = ⟨cexGrid1, 11, []⟩ := by
  rw [generateBranches_eq]
  rw [show List.range' 1 (run1Spine.length - 2) = [1, 2, 3] from by decide]
  rw [branchesLoop_skip_chance 9 (by decide) (by decide) (by decide)]
  rw [branchesLoop_skip_chance 10 (by decide) (by decide) (by decide)]
  rw [branchesLoop_skip_chance 11 (by decide) (by decide) (by decide)]
  rw [branchesLoop_nil]

theorem run1_eval :
    generateSpineFirstMazeRun exO1 3 3 ⟨0, 0⟩ ⟨2, 0⟩ cfg1 =
    ⟨⟨cexGrid1, 8, some run1Spine, 3, 4⟩, some ⟨cexGrid1, 11, []⟩, some cexGrid1⟩ :=
  generateSpineFirstMazeRun_of cexGrid1 8 run1Spine 3 4 ⟨cexGrid1, 11, []⟩ cexGrid1 11
    run1_spinelem run1_branches rfl

theorem run1_maze :
    generateSpineFirstMaze exO1 3 3 ⟨0, 0⟩ ⟨2, 0⟩ cfg1 = some (toOutputWalls cexGrid1) := by
  rw [generateSpineFirstMaze, run1_eval]
  rfl

theorem run2_spinelem :
    generateSpine exO2 initializeGrid ⟨0, 0⟩ ⟨3, 0⟩ 4 3 cfg2 0 =
    ⟨run2SpineGrid, 17, some run2Spine, 6, 9⟩ := by
  rw [generateSpine_eq]
  rw [spineLoop_move ⟨1, 0⟩ ⟨0, 1⟩ [⟨0, 1⟩] .down 119 0 2 1
    (by decide) (by decide) (by decide) (by decide) (by decide) (by decide) (by decide)
    (by decide)]
  rw [spineLoop_move ⟨1, 1⟩ ⟨1, 1⟩ [⟨0, 2⟩] .right 118 1 4 2
    (by decide) (by decide) (by decide) (by decide) (by decide) (by decide) (by decide)
    (by decide)]
  rw [spineLoop_move ⟨1, 0⟩ ⟨1, 2⟩ [⟨2, 1⟩, ⟨1, 2⟩] .down 117 2 7 3
    (by decide) (by decide) (by decide) (by decide) (by decide) (by decide) (by decide)
    (by decide)]
  rw [spineLoop_move ⟨2, 2⟩ ⟨0, 2⟩ [⟨0, 2⟩] .left 116 3 9 4
    (by decide) (by decide) (by decide) (by decide) (by decide) (by decide) (by decide)
    (by decide)]
  rw [spineLoop_backtrack 115 5 (by decide) (by decide) (by decide) (by decide)]
  rw [spineLoop_move ⟨2, 2⟩ ⟨2, 2⟩ [⟨0, 2⟩] .right 114 4 11 6
    (by decide) (by decide) (by decide) (by decide) (by decide) (by decide) (by decide)
    (by decide)]
  rw [spineLoop_move ⟨2, 1⟩ ⟨2, 1⟩ [⟨3, 2⟩] .up 113 5 13 7
    (by decide) (by decide) (by decide) (by decide) (by decide) (by decide) (by decide)
    (by decide)]
  rw [spineLoop_move ⟨2, 0⟩ ⟨2, 0⟩ [⟨3, 1⟩] .up 112 5 15 8
    (by decide) (by decide) (by decide) (by decide) (by decide) (by decide) (by decide)
    (by decide)]
  rw [spineLoop_move ⟨3, 0⟩ ⟨3, 0⟩ [⟨1, 0⟩] .right 111 6 17 9
    (by decide) (by decide) (by decide) (by decide) (by decide) (by decide) (by decide)
    (by decide)]
  rw [spineLoop_accept run2Spine (by decide) (by decide) (by decide)]
  rfl

theorem run2_branches :
    generateBranches exO2 run2SpineGrid run2Spine 4 3 cfg2 17 =
    ⟨cexGrid2, 31, run2Carves⟩ := by
  rw [generateBranches_eq]
  rw [show List.range' 1 (run2Spine.length - 2) = [1, 2, 3, 4, 5, 6] from by decide]
  rw [branchesLoop_fire0 ⟨0, 1⟩ ⟨0, 2⟩ ⟨0, 2⟩ [] ⟨⟨0, 1⟩, ⟨0, 2⟩, false, false⟩ 20
    (by decide) (by decide) (by decide) (by decide) (by decide) (by decide) (by decide)
    (by decide)]
  rw [branchesLoop_fire0 ⟨1, 1⟩ ⟨1, 0⟩ ⟨1, 0⟩ [] ⟨⟨1, 1⟩, ⟨1, 0⟩, false, false⟩ 23
    (by decide) (by decide) (by decide) (by decide) (by decide) (by decide) (by decide)
    (by decide)]
  rw [branchesLoop_skip_empty ⟨1, 2⟩ 24
    (by decide) (by decide) (by decide) (by decide) (by decide)]
  rw [branchesLoop_fire0 ⟨2, 2⟩ ⟨3, 2⟩ ⟨3, 2⟩ [] ⟨⟨2, 2⟩, ⟨3, 2⟩, false, false⟩ 27
    (by decide) (by decide) (by decide) (by decide) (by decide) (by decide) (by decide)
    (by decide)]
  rw [branchesLoop_fire0 ⟨2, 1⟩ ⟨3, 1⟩ ⟨3, 1⟩ [] ⟨⟨2, 1⟩, ⟨3, 1⟩, false, false⟩ 30
    (by decide) (by decide) (by decide) (by decide) (by decide) (by decide) (by decide)
    (by decide)]
  rw [branchesLoop_skip_empty ⟨2, 0⟩ 31
    (by decide) (by decide) (by decide) (by decide) (by decide)]
  rw [branchesLoop_nil]
  rfl

theorem run2_eval :
    generateSpineFirstMazeRun exO2 4 3 ⟨0, 0⟩ ⟨3, 0⟩ cfg2 =
    ⟨⟨run2SpineGrid, 17, some run2Spine, 6, 9⟩, some ⟨cexGrid2, 31, run2Carves⟩,
      some cexGrid2⟩ :=
  generateSpineFirstMazeRun_of run2SpineGrid 17 run2Spine 6 9 ⟨cexGrid2, 31, run2Carves⟩
    cexGrid2 31 run2_spinelem run2_branches rfl

theorem run2_maze :
    generateSpineFirstMaze exO2 4 3 ⟨0, 0⟩ ⟨3, 0⟩ cfg2 = some (toOutputWalls cexGrid2) := by
  rw [generateSpineFirstMaze, run2_eval]
  rfl

theorem run3_spinelem :
    generateSpine exO3 initializeGrid ⟨0, 0⟩ ⟨1, 1⟩ 2 2 cfg3 0 =
    ⟨run3SpineGrid, 3, some [⟨0, 0⟩, ⟨1, 0⟩, ⟨1, 1⟩], 1, 2⟩ := by
  rw [generateSpine_eq]
  rw [spineLoop_move ⟨1, 0⟩ ⟨1, 0⟩ [⟨0, 1⟩] .right 39 0 2 1
    (by decide) (by decide) (by decide) (by decide) (by decide) (by decide) (by decide)
    (by decide)]
  rw [spineLoop_move ⟨1, 1⟩ ⟨1, 1⟩ [] .down 38 1 3 2
    (by decide) (by decide) (by decide) (by decide) (by decide) (by decide) (by decide)
    (by decide)]
  rw [spineLoop_accept [⟨0, 0⟩, ⟨1, 0⟩, ⟨1, 1⟩] (by decide) (by decide) (by decide)]
  rfl

theorem run3_branches :
    generateBranches exO3 run3SpineGrid [⟨0, 0⟩, ⟨1, 0⟩, ⟨1, 1⟩] 2 2 cfg3 3 =
    ⟨run3SpineGrid, 4, []⟩ := by
  rw [generateBranches_eq]
  rw [show List.range' 1 (([⟨0, 0⟩, ⟨1, 0⟩, ⟨1, 1⟩] : List Pos).length - 2) = [1]
    from by decide]
  rw [branchesLoop_skip_chance 4 (by decide) (by decide) (by decide)]
  rw [branchesLoop_nil]

theorem run3_dfs :
    fillAreaDFS exO3 (setVisited (removeWallBetween run3SpineGrid ⟨0, 0⟩ ⟨0, 1⟩)
      ⟨0, 1⟩ true) ⟨0, 1⟩ 2 2 5 = (run3Grid, 5) := by
  rw [fillAreaDFS_eq]
  rw [dfsLoop_pop 8 (by decide) (by decide)]
  rw [dfsLoop_stop 7 (by decide)]
  rfl

theorem run3_fill :
    fillRemainingAreas exO3 run3SpineGrid 2 2 4 = (run3Grid, 5) := by
  rw [fillRemainingAreas_of run3Grid 5 ?h1]
  case h1 =>
    rw [show gridPositions 2 2 = [⟨0, 0⟩, ⟨1, 0⟩, ⟨0, 1⟩, ⟨1, 1⟩] from by decide]
    rw [fillPass1_visited (by decide)]
    rw [fillPass1_visited (by decide)]
    rw [fillPass1_connect ⟨0, 0⟩ ⟨0, 0⟩ [⟨1, 1⟩] run3Grid 5
      (by decide) (by decide) (by decide) run3_dfs]
    rw [fillPass1_visited (by decide)]
    rw [fillPass1_nil]
  rw [show gridPositions 2 2 = [⟨0, 0⟩, ⟨1, 0⟩, ⟨0, 1⟩, ⟨1, 1⟩] from by decide]
  rw [fillPass2_visited (by decide)]
  rw [fillPass2_visited (by decide)]
  rw [fillPass2_visited (by decide)]
  rw [fillPass2_visited (by decide)]
  rw [fillPass2_nil]

theorem run3_eval :
    generateSpineFirstMazeRun exO3 2 2 ⟨0, 0⟩ ⟨1, 1⟩ cfg3 =
    ⟨⟨run3SpineGrid, 3, some [⟨0, 0⟩, ⟨1, 0⟩, ⟨1, 1⟩], 1, 2⟩,
      some ⟨run3SpineGrid, 4, []⟩, some run3Grid⟩ := by
  refine generateSpineFirstMazeRun_of run3SpineGrid 3 [⟨0, 0⟩, ⟨1, 0⟩, ⟨1, 1⟩] 1 2
    ⟨run3SpineGrid, 4, []⟩ run3Grid 5 run3_spinelem run3_branches ?_
  show fillRemainingAreas exO3 run3SpineGrid 2 2 4 = (run3Grid, 5)
  exact run3_fill

theorem run3_maze :
    generateSpineFirstMaze exO3 2 2 ⟨0, 0⟩ ⟨1, 1⟩ cfg3 = some (toOutputWalls run3Grid) := by
  rw [generateSpineFirstMaze, run3_eval]
  rfl

/-! ## Validity of the example oracles -/

theorem validRand_exO1 : ValidRand exO1 := by
  refine ⟨fun n => ?_, fun n l => List.Perm.refl l⟩
  show 0 < (exO1.rand n).den ∧ 0 ≤ exO1.rand n ∧ exO1.rand n < 1
  unfold exO1
  dsimp only
  split_ifs <;> exact ⟨by decide, by decide, by decide⟩

theorem validRand_exO2 : ValidRand exO2 := by
  refine ⟨fun n => ?_, fun n l => List.Perm.refl l⟩
  show 0 < (exO2.rand n).den ∧ 0 ≤ exO2.rand n ∧ exO2.rand n < 1
  unfold exO2
  dsimp only
  split_ifs <;> exact ⟨by decide, by decide, by decide⟩

theorem validRand_exO3 : ValidRand exO3 := by
  refine ⟨fun n => ?_, fun n l => List.Perm.refl l⟩
  show 0 < (exO3.rand n).den ∧ 0 ≤ exO3.rand n ∧ exO3.rand n < 1
  unfold exO3
  dsimp only
  split_ifs <;> exact ⟨by decide, by decide, by decide⟩

/-! ## Claim C9: the evaluation-outcome assignment -/

/-- **C9.**  For every validation result, the assigned outcome is
`invalid_move` iff `isValid` is false; `success` iff `isValid` and
`reachesGoal` hold and `constraintsSatisfied` is not `false`;
`constraint_violated` iff `isValid` and `reachesGoal` hold and
`constraintsSatisfied` is `false`; and `failure` iff `isValid` holds but
`reachesGoal` does not — regardless of constraint state. -/
theorem newOutcome_cases (isValid reachesGoal : Bool) (cs : Option Bool) :
    (newOutcome isValid reachesGoal cs = .invalid_move ↔ isValid = false) ∧
    (newOutcome isValid reachesGoal cs = .success ↔
      isValid = true ∧ reachesGoal = true ∧ cs ≠ some false) ∧
    (newOutcome isValid reachesGoal cs = .constraint_violated ↔
      isValid = true ∧ reachesGoal = true ∧ cs = some false) ∧
    (newOutcome isValid reachesGoal cs = .failure ↔
      isValid = true ∧ reachesGoal = false) := by
  revert isValid reachesGoal cs
  decide

/-! ## Claim C10: `toOutputGrid` -/

/-- **C10.**  `toOutputGrid` preserves the grid dimensions and maps each
cell to one carrying exactly its `x`, `y` and four wall flags, dropping the
internal `visited`/`isSpine` flags (the embedding is pure, so the input
grid is unchanged and no wall record is shared). -/
theorem toOutputGrid_spec (grid : List (List CellXY)) :
    (toOutputGrid grid).length = grid.length ∧
    ∀ (i j : Nat), ((toOutputGrid grid)[i]?.bind (·[j]?)) =
      ((grid[i]?.bind (·[j]?)).map (fun c : CellXY => OutCellXY.mk c.x c.y c.walls)) := by
  constructor
  · simp [toOutputGrid]
  · intro i j
    simp [toOutputGrid, List.getElem?_map, Option.bind_map, Option.map_bind]

/-! ## Claim C8: `removeWallBetween` on non-unit offsets -/

/-- **C8, counterexample.**  The claim says a call on a pair whose offset is
not one of the 4 unit deltas halts with an error and leaves the wall flags
of both cells unchanged.  In fact `removeWallBetween` never halts (it is a
total function with no error path), and on the offset `(1,1)` it *does*
change the wall flags: it clears the right/left wall pair as if the cells
were horizontally adjacent. -/
theorem removeWallBetween_cex :
    ¬ (∀ (g : GridF) (p q : Pos), ¬ UnitDelta p q → removeWallBetween g p q = g) := by
  intro h
  have h2 := congrArg (fun g => (g ⟨0, 0⟩).walls.right)
    (h initializeGrid ⟨0, 0⟩ ⟨1, 1⟩ (by decide))
  exact absurd h2 (by decide)

/-- **C8, amended.**  Calling `removeWallBetween` on a pair of cells
neither of whose coordinate offsets is ±1 is silently absorbed: no error is
raised and the wall flags of both cells are unchanged (offsets with a ±1
coordinate that are not unit deltas are instead treated like the matching
axis direction). -/
theorem removeWallBetween_nonunit (g : GridF) (p q : Pos)
    (hdx : (q.x : Int) - p.x ≠ 1 ∧ (q.x : Int) - p.x ≠ -1)
    (hdy : (q.y : Int) - p.y ≠ 1 ∧ (q.y : Int) - p.y ≠ -1) :
    removeWallBetween g p q = g := by
  unfold removeWallBetween
  simp [hdx.1, hdx.2, hdy.1, hdy.2]

/-- Witness for `removeWallBetween_nonunit` at offset `(2,0)`. -/
theorem removeWallBetween_nonunit_witness :
    removeWallBetween initializeGrid ⟨0, 0⟩ ⟨2, 0⟩ = initializeGrid :=
  removeWallBetween_nonunit initializeGrid ⟨0, 0⟩ ⟨2, 0⟩ (by decide) (by decide)

theorem spineLoop_some (O : Oracle) (cfg : SpineFirstConfig) (goal : Pos) (w h m : Nat) :
    ∀ (fuel : Nat) (st : SpineSt) (res : SpineResult),
      spineLoop O cfg goal w h m fuel st = res →
      ∀ sp, res.spine = some sp →
      m ≤ sp.length ∧ sp.getLast? = some goal ∧
        (0 < cfg.minTurns.getD 0 → cfg.minTurns.getD 0 ≤ res.turnCount) := by
  intro fuel
  induction fuel with
  | zero =>
    rintro ⟨g, spine, tc, ld, ridx, iters⟩ res heq sp hsp
    cases spine with
    | nil => rw [spineLoop] at heq; subst heq; simp at hsp
    | cons current rest =>
      rw [spineLoop] at heq
      dsimp only at heq
      split at heq
      · split at heq
        · subst heq; simp at hsp
        · split at heq
          · subst heq; simp at hsp
          · subst heq
            dsimp only at hsp ⊢
            obtain rfl : (current :: rest).reverse = sp := Option.some_injective _ hsp
            next hg h1 h2 =>
              refine ⟨not_lt.1 h1, ?_, fun hmt => ?_⟩
              · rw [List.getLast?_reverse]
                simp [hg]
              · exact not_lt.1 fun hlt => h2 ⟨hmt, hlt⟩
      · subst heq; simp at hsp
  | succ f ih =>
    rintro ⟨g, spine, tc, ld, ridx, iters⟩ res heq sp hsp
    cases spine with
    | nil => rw [spineLoop] at heq; subst heq; simp at hsp
    | cons current rest =>
      rw [spineLoop] at heq
      dsimp only at heq
      split at heq
      · split at heq
        · subst heq; simp at hsp
        · split at heq
          · subst heq; simp at hsp
          · subst heq
            dsimp only at hsp ⊢
            obtain rfl : (current :: rest).reverse = sp := Option.some_injective _ hsp
            next hg h1 h2 =>
              refine ⟨not_lt.1 h1, ?_, fun hmt => ?_⟩
              · rw [List.getLast?_reverse]
                simp [hg]
              · exact not_lt.1 fun hlt => h2 ⟨hmt, hlt⟩
      · split at heq
        · split at heq
          · subst heq; simp at hsp
          · exact ih _ res heq sp hsp
        · exact ih _ res heq sp hsp

theorem spineLoop_iters (O : Oracle) (cfg : SpineFirstConfig) (goal : Pos) (w h m : Nat) :
    ∀ (fuel : Nat) (st : SpineSt),
      (spineLoop O cfg goal w h m fuel st).iters ≤ st.iters + fuel + 1 := by
  intro fuel
  induction fuel with
  | zero =>
    rintro ⟨g, spine, tc, ld, ridx, iters⟩
    cases spine with
    | nil => rw [spineLoop]; dsimp only; omega
    | cons current rest =>
      rw [spineLoop]
      dsimp only
      split
      · split
        · dsimp only; omega
        · split
          · dsimp only; omega
          · dsimp only; omega
      · dsimp only; omega
  | succ f ih =>
    rintro ⟨g, spine, tc, ld, ridx, iters⟩
    cases spine with
    | nil => rw [spineLoop]; dsimp only; omega
    | cons current rest =>
      rw [spineLoop]
      dsimp only
      split
      · split
        · dsimp only; omega
        · split
          · dsimp only; omega
          · dsimp only; omega
      · split
        · split
          · dsimp only; omega
          · refine le_trans (ih _) ?_
            dsimp only
            omega
        · refine le_trans (ih _) ?_
          dsimp only
          omega

/-- **C1, amended.**  Whenever Phase 1 succeeds, the accepted spine
contains at least `ceil(manhattanDistance(start, goal) × tortuosity)`
cells; the spine itself is thus a start-to-goal walk of at least
`ceil(...) − 1` moves, but the shortest path through the final grid can be
shorter (see the counterexample). -/
theorem spine_length_meets_tortuosity (O : Oracle) (g : GridF) (start goal : Pos)
    (w h : Nat) (cfg : SpineFirstConfig) (ridx : Nat) (sp : List Pos)
    (hsp : (generateSpine O g start goal w h cfg ridx).spine = some sp) :
    (Q.ofNat (manhattanDistance start goal) * cfg.tortuosity).ceil.toNat ≤ sp.length :=
  (spineLoop_some O cfg goal w h _ (w * h * 10) _ _
    (generateSpine_eq O g start goal w h cfg ridx).symm sp hsp).1

/-- Witness for `spine_length_meets_tortuosity` on the first concrete run. -/
theorem spine_length_meets_tortuosity_witness :
    (Q.ofNat (manhattanDistance ⟨0, 0⟩ ⟨2, 0⟩) * cfg1.tortuosity).ceil.toNat ≤
      run1Spine.length :=
  spine_length_meets_tortuosity exO1 initializeGrid ⟨0, 0⟩ ⟨2, 0⟩ 3 3 cfg1 0 run1Spine
    (by rw [run1_spinelem])

/-- **C1, counterexample.**  The claim — in every successful spine-first
generation the shortest start-goal path through the open-passage graph has
at least `ceil(manhattanDistance × tortuosity)` moves — fails on the first
concrete execution: generation succeeds with `ceil(2 × 2.5) = 5` while the
spine itself realises a 4-move path (the generator compares `ceil(...)`
against the spine's *cell count*, which exceeds its move count by one). -/
theorem shortest_path_tortuosity_cex :
    ¬ (∀ W, generateSpineFirstMaze exO1 3 3 ⟨0, 0⟩ ⟨2, 0⟩ cfg1 = some W →
        ShortestPathMeets W ⟨0, 0⟩ ⟨2, 0⟩
          ((Q.ofNat (manhattanDistance ⟨0, 0⟩ ⟨2, 0⟩) * cfg1.tortuosity).ceil.toNat)) := by
  intro hcl
  have h2 := hcl (toOutputWalls cexGrid1) run1_maze run1Spine (by decide) (by decide)
    (by simp only [run1Spine, List.chain'_cons, List.chain'_singleton]
        exact ⟨by decide, by decide, by decide, by decide⟩)
  revert h2
  decide

/-- **C3.**  `generateSpine` returns a spine only if its cell count meets
`ceil(manhattanDistance × tortuosity)` and, when `minTurns > 0` is
configured, the recorded turn count reached `minTurns`; in every
goal-reaching state that fails one of these checks the walk returns `null`
instead. -/
theorem generateSpine_acceptance (O : Oracle) (g : GridF) (start goal : Pos)
    (w h : Nat) (cfg : SpineFirstConfig) (ridx : Nat) :
    (∀ sp, (generateSpine O g start goal w h cfg ridx).spine = some sp →
      (Q.ofNat (manhattanDistance start goal) * cfg.tortuosity).ceil.toNat ≤ sp.length ∧
      (0 < cfg.minTurns.getD 0 →
        cfg.minTurns.getD 0 ≤ (generateSpine O g start goal w h cfg ridx).turnCount)) ∧
    (∀ (m fuel : Nat) (g' : GridF) (rest : List Pos) (tc : Nat) (ld : Option Dir)
      (ridx' iters : Nat),
      ((goal :: rest).reverse.length < m ∨
        (0 < cfg.minTurns.getD 0 ∧ tc < cfg.minTurns.getD 0)) →
      (spineLoop O cfg goal w h m fuel ⟨g', goal :: rest, tc, ld, ridx', iters⟩).spine =
        none) := by
  constructor
  · intro sp hsp
    have h := spineLoop_some O cfg goal w h _ (w * h * 10) _ _
      (generateSpine_eq O g start goal w h cfg ridx).symm sp hsp
    exact ⟨h.1, h.2.2⟩
  · intro m fuel g' rest tc ld ridx' iters hor
    rw [spineLoop]
    dsimp only
    rw [if_pos rfl]
    rcases hor with hlen | hturn
    · rw [if_pos hlen]
    · by_cases hlen : (goal :: rest).reverse.length < m
      · rw [if_pos hlen]
      · rw [if_neg hlen, if_pos hturn]

/-- Witness for `generateSpine_acceptance`: the first concrete run meets
the length bound, and a goal-reaching state with a 1-cell spine against
`minPathLength = 5` is rejected. -/
theorem generateSpine_acceptance_witness :
    ((Q.ofNat (manhattanDistance ⟨0, 0⟩ ⟨2, 0⟩) * cfg1.tortuosity).ceil.toNat ≤
      run1Spine.length) ∧
    (spineLoop exO1 cfg1 ⟨2, 0⟩ 3 3 5 0
      ⟨initializeGrid, [⟨2, 0⟩], 0, none, 0, 0⟩).spine = none := by
  constructor
  · exact ((generateSpine_acceptance exO1 initializeGrid ⟨0, 0⟩ ⟨2, 0⟩ 3 3 cfg1 0).1
      run1Spine (by rw [run1_spinelem])).1
  · exact (generateSpine_acceptance exO1 initializeGrid ⟨0, 0⟩ ⟨2, 0⟩ 3 3 cfg1 0).2
      5 0 initializeGrid [] 0 none 0 0 (Or.inl (by decide))

/-- **C7.**  `generateSpine` terminates: it runs at most
`width × height × 10 + 1` loop iterations, and when it returns a spine the
spine ends at the goal. -/
theorem generateSpine_iteration_cap (O : Oracle) (g : GridF) (start goal : Pos)
    (w h : Nat) (cfg : SpineFirstConfig) (ridx : Nat) :
    (generateSpine O g start goal w h cfg ridx).iters ≤ w * h * 10 + 1 ∧
    (∀ sp, (generateSpine O g start goal w h cfg ridx).spine = some sp →
      sp.getLast? = some goal) := by
  constructor
  · rw [generateSpine_eq]
    have h := spineLoop_iters O cfg goal w h
      ((Q.ofNat (manhattanDistance start goal) * cfg.tortuosity).ceil.toNat) (w * h * 10)
      ⟨setSpine (setVisited g start true) start true, [start], 0, none, ridx, 0⟩
    simpa using h
  · intro sp hsp
    exact (spineLoop_some O cfg goal w h _ (w * h * 10) _ _
      (generateSpine_eq O g start goal w h cfg ridx).symm sp hsp).2.1

/-- Witness for `generateSpine_iteration_cap` on the first concrete run. -/
theorem generateSpine_iteration_cap_witness :
    (generateSpine exO1 initializeGrid ⟨0, 0⟩ ⟨2, 0⟩ 3 3 cfg1 0).iters ≤ 3 * 3 * 10 + 1 ∧
    run1Spine.getLast? = some ⟨2, 0⟩ :=
  ⟨(generateSpine_iteration_cap exO1 initializeGrid ⟨0, 0⟩ ⟨2, 0⟩ 3 3 cfg1 0).1,
   (generateSpine_iteration_cap exO1 initializeGrid ⟨0, 0⟩ ⟨2, 0⟩ 3 3 cfg1 0).2 run1Spine
     (by rw [run1_spinelem])⟩

/-! ## Basic facts about neighbours, random picks and scores -/

theorem getNeighbors_adjacent {p n : Pos} {w h : Nat} (hn : n ∈ getNeighbors p w h) :
    UnitDelta p n := by
  unfold getNeighbors at hn
  unfold UnitDelta manhattanDistance
  obtain ⟨x, y⟩ := p
  simp only [List.mem_append, List.mem_singleton] at hn
  rcases hn with ((h1 | h2) | h3) | h4
  · split at h1
    · obtain rfl := List.mem_singleton.1 h1
      simp only
      omega
    · simp at h1
  · split at h2
    · obtain rfl := List.mem_singleton.1 h2
      simp only
      omega
    · simp at h2
  · split at h3
    · obtain rfl := List.mem_singleton.1 h3
      simp only
      omega
    · simp at h3
  · split at h4
    · obtain rfl := List.mem_singleton.1 h4
      next hx =>
        simp only
        omega
    · simp at h4

theorem getUnvisitedNeighbors_spec {g : GridF} {p n : Pos} {w h : Nat}
    (hn : n ∈ getUnvisitedNeighbors g p w h) :
    n ∈ getNeighbors p w h ∧ (g n).visited = false := by
  unfold getUnvisitedNeighbors at hn
  obtain ⟨h1, h2⟩ := List.mem_filter.1 hn
  exact ⟨h1, by simpa using h2⟩

theorem Q.floor_nonneg_lt {r : Q} (hden : 0 < r.den) (h0 : (0 : Q) ≤ r) (h1 : r < 1)
    (len : Nat) (hlen : 0 < len) :
    0 ≤ (r * Q.ofNat len).floor ∧ (r * Q.ofNat len).floor < len := by
  obtain ⟨n, d⟩ := r
  have hn0 : 0 ≤ n := by
    have h := h0
    simp only [LE.le, Q.le, show ((0 : Q)).num = 0 from rfl,
      show ((0 : Q)).den = 1 from rfl] at h
    simpa using h
  have hnd : n < d := by
    have h := h1
    simp only [LT.lt, Q.lt, show ((1 : Q)).num = 1 from rfl,
      show ((1 : Q)).den = 1 from rfl] at h
    simpa using h
  have hmul : (Q.mk n d * Q.ofNat len) = Q.mk (n * len) (d * 1) := rfl
  rw [hmul]
  unfold Q.floor
  dsimp only
  have hd : (0 : Int) < (d * 1 : Nat) := by
    simpa using hden
  rw [Int.fdiv_eq_ediv _ (le_of_lt hd)]
  constructor
  · exact Int.ediv_nonneg (by positivity) (le_of_lt hd)
  · rw [Int.ediv_lt_iff_lt_mul hd]
    push_cast
    nlinarith

theorem randPick_mem {O : Oracle} (hO : ValidRand O) (ridx : Nat) (l : List Pos)
    (dflt : Pos) (hl : l ≠ []) : randPick O ridx l dflt ∈ l := by
  unfold randPick
  obtain ⟨hden, h0, h1⟩ := hO.1 ridx
  have hlen : 0 < l.length := List.length_pos.2 hl
  obtain ⟨hge, hlt⟩ := Q.floor_nonneg_lt hden h0 h1 l.length hlen
  have hidx : ((O.rand ridx * Q.ofNat l.length).floor).toNat < l.length := by
    omega
  rw [List.getD_eq_getElem l dflt hidx]
  exact List.getElem_mem hidx

theorem scoreNeighbors_cells (O : Oracle) (cfg : SpineFirstConfig) (goal current : Pos)
    (tc : Nat) (ld : Option Dir) :
    ∀ (ns : List Pos) (ridx : Nat) (sn : ScoredNeighbor),
      sn ∈ scoreNeighbors O cfg goal current tc ld ridx ns → sn.cell ∈ ns := by
  intro ns
  induction ns with
  | nil => intro ridx sn hsn; simp [scoreNeighbors] at hsn
  | cons n rest ih =>
    intro ridx sn hsn
    rw [scoreNeighbors] at hsn
    rcases List.mem_cons.1 hsn with rfl | hmem
    · exact List.mem_cons_self _ _
    · exact List.mem_cons_of_mem _ (ih (ridx + 1) sn hmem)

theorem chooseBest_mem (first : ScoredNeighbor) (rest : List ScoredNeighbor) :
    chooseBest first rest = first ∨ chooseBest first rest ∈ rest := by
  unfold chooseBest
  induction rest generalizing first with
  | nil => exact Or.inl rfl
  | cons b bs ih =>
    rw [List.foldl_cons]
    rcases ih (if first.score < b.score then b else first) with heq | hmem
    · rw [heq]
      split
      · exact Or.inr (List.mem_cons_self _ _)
      · exact Or.inl rfl
    · exact Or.inr (List.mem_cons_of_mem _ hmem)

theorem walls_setVisited (g : GridF) (p : Pos) (b : Bool) (q : Pos) :
    ((setVisited g p b) q).walls = (g q).walls := by
  unfold setVisited updateCell
  split <;> rfl

theorem walls_setSpine (g : GridF) (p : Pos) (b : Bool) (q : Pos) :
    ((setSpine g p b) q).walls = (g q).walls := by
  unfold setSpine updateCell
  split <;> rfl

/-! ## Branch growth only carves into untouched, non-spine cells -/

theorem generateLinearDeadEnd_spec (O : Oracle) (hO : ValidRand O) (w h : Nat) :
    ∀ (depth : Nat) (g : GridF) (s : Pos) (ridx : Nat),
      (∀ c ∈ (generateLinearDeadEnd O w h depth g s ridx).2.2,
        c.tgtVisited = false ∧ c.tgtSpine = false) ∧
      ChainCarves s (generateLinearDeadEnd O w h depth g s ridx).2.2 := by
  intro depth
  induction depth with
  | zero =>
    intro g s ridx
    rw [generateLinearDeadEnd]
    exact ⟨fun c hc => absurd hc (by simp), trivial⟩
  | succ d ih =>
    intro g s ridx
    rw [generateLinearDeadEnd]
    by_cases hne : ((getUnvisitedNeighbors g s w h).filter fun n => !(g n).isSpine).isEmpty
    · rw [if_pos hne]
      exact ⟨fun c hc => absurd hc (by simp), trivial⟩
    · rw [if_neg hne]
      dsimp only
      have hnil : ((getUnvisitedNeighbors g s w h).filter fun n => !(g n).isSpine) ≠ [] := by
        simpa [List.isEmpty_iff] using hne
      set next := randPick O ridx
        ((getUnvisitedNeighbors g s w h).filter fun n => !(g n).isSpine) s with hnext
      have hmem : next ∈ (getUnvisitedNeighbors g s w h).filter fun n => !(g n).isSpine :=
        randPick_mem hO ridx _ s hnil
      obtain ⟨hmem1, hspine⟩ := List.mem_filter.1 hmem
      obtain ⟨hadj, hvis⟩ := getUnvisitedNeighbors_spec hmem1
      rcases hrec : generateLinearDeadEnd O w h d
        (setVisited (removeWallBetween g s next) next true) next (ridx + 1)
        with ⟨g2, r2, carves2⟩
      dsimp only
      have hih := ih (setVisited (removeWallBetween g s next) next true) next (ridx + 1)
      rw [hrec] at hih
      refine ⟨fun c hc => ?_, ?_⟩
      · rcases List.mem_cons.1 hc with rfl | hc2
        · exact ⟨hvis, by simpa using hspine⟩
        · exact hih.1 c hc2
      · exact ⟨rfl, getNeighbors_adjacent hadj, hih.2⟩

theorem branchMainLoop_spec (O : Oracle) (hO : ValidRand O) (w h : Nat) :
    ∀ (steps : Nat) (g : GridF) (s : Pos) (ridx : Nat),
      ∀ c ∈ (branchMainLoop O w h steps g s ridx).2.2.2,
        c.tgtVisited = false ∧ c.tgtSpine = false := by
  intro steps
  induction steps with
  | zero =>
    intro g s ridx c hc
    rw [branchMainLoop] at hc
    exact absurd hc (by simp)
  | succ d ih =>
    intro g s ridx c hc
    rw [branchMainLoop] at hc
    by_cases hne : ((getUnvisitedNeighbors g s w h).filter fun n => !(g n).isSpine).isEmpty
    · rw [if_pos hne] at hc
      exact absurd hc (by simp)
    · rw [if_neg hne] at hc
      dsimp only at hc
      have hnil : ((getUnvisitedNeighbors g s w h).filter fun n => !(g n).isSpine) ≠ [] := by
        simpa [List.isEmpty_iff] using hne
      set next := randPick O ridx
        ((getUnvisitedNeighbors g s w h).filter fun n => !(g n).isSpine) s with hnext
      have hmem : next ∈ (getUnvisitedNeighbors g s w h).filter fun n => !(g n).isSpine :=
        randPick_mem hO ridx _ s hnil
      obtain ⟨hmem1, hspine⟩ := List.mem_filter.1 hmem
      obtain ⟨hadj, hvis⟩ := getUnvisitedNeighbors_spec hmem1
      rcases hrec : branchMainLoop O w h d
        (setVisited (removeWallBetween g s next) next true) next (ridx + 1)
        with ⟨g2, r2, cells2, carves2⟩
      rcases List.mem_cons.1 hc with rfl | hc2
      · exact ⟨hvis, by simpa using hspine⟩
      · exact ih (setVisited (removeWallBetween g s next) next true) next (ridx + 1) c hc2

theorem subBranchLoop_spec (O : Oracle) (hO : ValidRand O) (w h : Nat) (sbc : Q)
    (maxSB : Int) :
    ∀ (cells : List Pos) (added : Nat) (g : GridF) (ridx : Nat),
      (∀ sp ∈ (subBranchLoop O w h sbc maxSB cells added g ridx).2.2,
        sp.fromCell ∈ cells ∧ sp.startCarve.src = sp.fromCell ∧
        sp.startCarve.tgt = sp.startCell ∧ UnitDelta sp.fromCell sp.startCell ∧
        sp.startCarve.tgtVisited = false ∧ sp.startCarve.tgtSpine = false ∧
        ChainCarves sp.startCell sp.bodyCarves ∧
        (∀ c ∈ sp.bodyCarves, c.tgtVisited = false ∧ c.tgtSpine = false)) ∧
      (subBranchLoop O w h sbc maxSB cells added g ridx).2.2.length ≤
        (maxSB - (added : Int)).toNat := by
  intro cells
  induction cells with
  | nil =>
    intro added g ridx
    rw [subBranchLoop]
    exact ⟨fun sp hsp => absurd hsp (by simp), by simp⟩
  | cons cell cells ih =>
    intro added g ridx
    rw [subBranchLoop]
    by_cases hstop : maxSB ≤ (added : Int)
    · rw [if_pos hstop]
      exact ⟨fun sp hsp => absurd hsp (by simp), by simp⟩
    · rw [if_neg hstop]
      by_cases hch : sbc < O.rand ridx
      · rw [if_pos hch]
        have hih := ih added g (ridx + 1)
        refine ⟨fun sp hsp => ?_, hih.2⟩
        obtain ⟨h1, hrest⟩ := hih.1 sp hsp
        exact ⟨List.mem_cons_of_mem _ h1, hrest⟩
      · rw [if_neg hch]
        by_cases hne : ((getUnvisitedNeighbors g cell w h).filter
            fun n => !(g n).isSpine).isEmpty
        · rw [if_pos hne]
          have hih := ih added g (ridx + 1)
          refine ⟨fun sp hsp => ?_, hih.2⟩
          obtain ⟨h1, hrest⟩ := hih.1 sp hsp
          exact ⟨List.mem_cons_of_mem _ h1, hrest⟩
        · rw [if_neg hne]
          dsimp only
          have hnil : ((getUnvisitedNeighbors g cell w h).filter
              fun n => !(g n).isSpine) ≠ [] := by
            simpa [List.isEmpty_iff] using hne
          set subStart := randPick O (ridx + 1)
            ((getUnvisitedNeighbors g cell w h).filter fun n => !(g n).isSpine) cell
            with hss
          have hmem : subStart ∈ (getUnvisitedNeighbors g cell w h).filter
              fun n => !(g n).isSpine := randPick_mem hO (ridx + 1) _ cell hnil
          obtain ⟨hmem1, hspine⟩ := List.mem_filter.1 hmem
          obtain ⟨hadj, hvis⟩ := getUnvisitedNeighbors_spec hmem1
          set g1 := setVisited (removeWallBetween g cell subStart) subStart true with hg1
          rcases hlin : generateLinearDeadEnd O w h
            ((5 + (O.rand (ridx + 2) * (21 : Q)).floor - 1).toNat) g1 subStart (ridx + 3)
            with ⟨g2, r2, bodyC⟩
          rcases hsub : subBranchLoop O w h sbc maxSB cells (added + 1) g2 r2
            with ⟨g3, r3, spawns⟩
          dsimp only
          have hlinspec := generateLinearDeadEnd_spec O hO w h
            ((5 + (O.rand (ridx + 2) * (21 : Q)).floor - 1).toNat) g1 subStart (ridx + 3)
          rw [hlin] at hlinspec
          have hih := ih (added + 1) g2 r2
          rw [hsub] at hih
          constructor
          · intro sp hsp
            rcases List.mem_cons.1 hsp with rfl | hsp2
            · exact ⟨List.mem_cons_self _ _, rfl, rfl, getNeighbors_adjacent hadj,
                hvis, by simpa using hspine, hlinspec.2, hlinspec.1⟩
            · obtain ⟨h1, hrest⟩ := hih.1 sp hsp2
              exact ⟨List.mem_cons_of_mem _ h1, hrest⟩
          · have hb := hih.2
            dsimp only at hb
            simp only [List.length_cons]
            omega

theorem generateDeadEndBranch_spec (O : Oracle) (hO : ValidRand O) (w h : Nat) (sbc : Q)
    (depth : Nat) (g : GridF) (s : Pos) (ridx : Nat) :
    (generateDeadEndBranch O w h sbc depth g s ridx).subSpawns.length ≤ 3 ∧
    (∀ c ∈ (generateDeadEndBranch O w h sbc depth g s ridx).mainCarves,
      c.tgtVisited = false ∧ c.tgtSpine = false) ∧
    (∀ sp ∈ (generateDeadEndBranch O w h sbc depth g s ridx).subSpawns,
      sp.fromCell ∈ (generateDeadEndBranch O w h sbc depth g s ridx).branchCells.drop 1 ∧
      sp.startCarve.src = sp.fromCell ∧ sp.startCarve.tgt = sp.startCell ∧
      UnitDelta sp.fromCell sp.startCell ∧
      sp.startCarve.tgtVisited = false ∧ sp.startCarve.tgtSpine = false ∧
      ChainCarves sp.startCell sp.bodyCarves ∧
      (∀ c ∈ sp.bodyCarves, c.tgtVisited = false ∧ c.tgtSpine = false)) := by
  cases depth with
  | zero =>
    rw [generateDeadEndBranch]
    exact ⟨by simp, fun c hc => absurd hc (by simp), fun sp hsp => absurd hsp (by simp)⟩
  | succ d =>
    rw [generateDeadEndBranch]
    rcases hmain : branchMainLoop O w h (d + 1) g s ridx with ⟨g1, r1, grown, mcarves⟩
    dsimp only
    have hmainspec := branchMainLoop_spec O hO w h (d + 1) g s ridx
    rw [hmain] at hmainspec
    by_cases hguard : (0 : Q) < sbc ∧ 1 < (s :: grown).length
    · rw [if_pos hguard]
      dsimp only
      obtain ⟨hdenr, h0r, h1r⟩ := hO.1 r1
      have hmax := Q.floor_nonneg_lt hdenr h0r h1r 4 (by omega)
      rcases hsub : subBranchLoop O w h sbc ((O.rand r1 * (4 : Q)).floor)
        (O.shuffle (r1 + 1) ((s :: grown).drop 1)) 0 g1
        (r1 + 1 + O.shuffleCost (r1 + 1)) with ⟨g3, r3, spawns⟩
      dsimp only
      have hspec := subBranchLoop_spec O hO w h sbc ((O.rand r1 * (4 : Q)).floor)
        (O.shuffle (r1 + 1) ((s :: grown).drop 1)) 0 g1
        (r1 + 1 + O.shuffleCost (r1 + 1))
      rw [hsub] at hspec
      refine ⟨?_, hmainspec, fun sp hsp => ?_⟩
      · have hb := hspec.2
        have hmax4 : 0 ≤ (O.rand r1 * (4 : Q)).floor ∧ (O.rand r1 * (4 : Q)).floor < 4 := hmax
        dsimp only at hb ⊢
        omega
      · obtain ⟨h1, hrest⟩ := hspec.1 sp hsp
        have hperm := (hO.2 (r1 + 1) ((s :: grown).drop 1)).mem_iff.1 h1
        exact ⟨hperm, hrest⟩
    · rw [if_neg hguard]
      exact ⟨by simp, hmainspec, fun sp hsp => absurd hsp (by simp)⟩

theorem branchesStep_carves (O : Oracle) (hO : ValidRand O) (w h : Nat)
    (cfg : SpineFirstConfig) (spine : List Pos) (i : Nat) (lbi : Int) (g : GridF)
    (ridx : Nat) :
    ∀ c ∈ (branchesStep O w h cfg spine i lbi g ridx).2.2.2,
      c.tgtVisited = false ∧ c.tgtSpine = false := by
  intro c hc
  unfold branchesStep at hc
  dsimp only at hc
  by_cases hspc : (i : Int) - lbi < ((cfg.minBranchSpacing.getD 5 : Nat) : Int)
  · rw [if_pos hspc] at hc
    exact absurd hc (by simp)
  · rw [if_neg hspc] at hc
    by_cases hch : cfg.branchChance < O.rand ridx
    · rw [if_pos hch] at hc
      exact absurd hc (by simp)
    · rw [if_neg hch] at hc
      by_cases hne : ((getUnvisitedNeighbors g (spine.getD i ⟨0, 0⟩) w h).filter
          fun n => !(g n).isSpine).isEmpty
      · rw [if_pos hne] at hc
        exact absurd hc (by simp)
      · rw [if_neg hne] at hc
        dsimp only at hc
        have hnil : ((getUnvisitedNeighbors g (spine.getD i ⟨0, 0⟩) w h).filter
            fun n => !(g n).isSpine) ≠ [] := by
          simpa [List.isEmpty_iff] using hne
        set sc := spine.getD i ⟨0, 0⟩ with hsc
        set bst := randPick O (ridx + 1)
          ((getUnvisitedNeighbors g sc w h).filter fun n => !(g n).isSpine) sc with hbst
        have hmem : bst ∈ (getUnvisitedNeighbors g sc w h).filter
            fun n => !(g n).isSpine := randPick_mem hO (ridx + 1) _ sc hnil
        obtain ⟨hmem1, hspine⟩ := List.mem_filter.1 hmem
        obtain ⟨hadj, hvis⟩ := getUnvisitedNeighbors_spec hmem1
        have hbr := generateDeadEndBranch_spec O hO w h (cfg.subBranchChance.getD 0)
          ((((cfg.minBranchLength.getD 1 : Nat) : Int) +
            (O.rand (ridx + 2) * Q.ofInt ((cfg.maxBranchLength : Int) -
              ((cfg.minBranchLength.getD 1 : Nat) : Int) + 1)).floor - 1).toNat)
          (setVisited (removeWallBetween g sc bst) bst true) bst (ridx + 3)
        rcases List.mem_cons.1 hc with rfl | hc2
        · exact ⟨hvis, by simpa using hspine⟩
        · rcases List.mem_append.1 hc2 with hcm | hcf
          · exact hbr.2.1 c hcm
          · obtain ⟨sp, hsp, hcin⟩ := List.mem_flatMap.1 hcf
            obtain ⟨hfc, hsrc, htgt, hud, hv, hs, hcch, hbody⟩ := hbr.2.2 sp hsp
            rcases List.mem_cons.1 hcin with rfl | hcb
            · exact ⟨hv, hs⟩
            · exact hbody c hcb

theorem branchesLoop_carves (O : Oracle) (hO : ValidRand O) (w h : Nat)
    (cfg : SpineFirstConfig) (spine : List Pos) :
    ∀ (idxs : List Nat) (lbi : Int) (g : GridF) (ridx : Nat),
      ∀ c ∈ (branchesLoop O w h cfg spine idxs lbi g ridx).carves,
        c.tgtVisited = false ∧ c.tgtSpine = false := by
  intro idxs
  induction idxs with
  | nil =>
    intro lbi g ridx c hc
    rw [branchesLoop] at hc
    exact absurd hc (by simp)
  | cons i is ih =>
    intro lbi g ridx c hc
    rw [branchesLoop] at hc
    rcases hstep : branchesStep O w h cfg spine i lbi g ridx with ⟨g1, r1, lbi1, cs⟩
    rw [hstep] at hc
    dsimp only at hc
    rcases List.mem_append.1 hc with hcm | hcf
    · have := branchesStep_carves O hO w h cfg spine i lbi g ridx c
      rw [hstep] at this
      exact this hcm
    · exact ih lbi1 g1 r1 c hcf

/-- **C2, amended.**  Every wall removal performed during Phase 2 (branch
decoration) carves from the existing structure into a cell that is
unvisited and not on the spine at that moment — a branch never directly
opens a wall into the spine or into an already-carved cell.  (Backtracking
in Phase 1 can nevertheless leave open passages through which such a fresh
cell is already connected, so the final graph may contain cycles; see the
counterexample.) -/
theorem generateBranches_carves_untouched (O : Oracle) (hO : ValidRand O)
    (g : GridF) (spine : List Pos) (w h : Nat) (cfg : SpineFirstConfig) (ridx : Nat) :
    ∀ c ∈ (generateBranches O g spine w h cfg ridx).carves,
      c.tgtVisited = false ∧ c.tgtSpine = false := by
  rw [generateBranches_eq]
  exact branchesLoop_carves O hO w h cfg spine _ _ g ridx

/-- Witness for `generateBranches_carves_untouched` on the second concrete
run: its first Phase-2 carve (into the backtrack-abandoned cell `(0,2)`)
indeed records an unvisited, non-spine target. -/
theorem generateBranches_carves_untouched_witness :
    (⟨⟨0, 1⟩, ⟨0, 2⟩, false, false⟩ : Carve).tgtVisited = false ∧
    (⟨⟨0, 1⟩, ⟨0, 2⟩, false, false⟩ : Carve).tgtSpine = false :=
  generateBranches_carves_untouched exO2 validRand_exO2 run2SpineGrid run2Spine 4 3 cfg2 17
    ⟨⟨0, 1⟩, ⟨0, 2⟩, false, false⟩ (by rw [run2_branches]; decide)

/-- **C2, counterexample.**  The claim — the open-passage graph of every
successful spine-first generation is acyclic — fails on the second concrete
execution: Phase 1 backtracks out of `(0,2)` leaving its wall towards
`(1,2)` open, and Phase 2 later grows a branch from `(0,1)` into `(0,2)`,
closing the simple cycle `(0,2) – (0,1) – (1,1) – (1,2) – (0,2)`. -/
theorem branch_acyclicity_cex :
    ¬ (∀ W, generateSpineFirstMaze exO2 4 3 ⟨0, 0⟩ ⟨3, 0⟩ cfg2 = some W → AcyclicW W) := by
  intro hcl
  refine hcl (toOutputWalls cexGrid2) run2_maze [⟨0, 2⟩, ⟨0, 1⟩, ⟨1, 1⟩, ⟨1, 2⟩]
    ⟨by decide, by decide, ?_, ⟨0, 2⟩, ⟨1, 2⟩, by decide, by decide, by decide⟩
  simp only [List.chain'_cons, List.chain'_singleton]
  exact ⟨by decide, by decide, by decide⟩

/-- **C6.**  Each Phase-2 branch spawns at most 3 sub-branches; every
sub-branch starts from a cell of the branch other than its first cell;
its connecting carve and linear body only open walls into unvisited,
non-spine cells; and the body is a single corridor
(`generateLinearDeadEnd` carves a chain and spawns nothing further, so
recursion stops at spine → branch → sub-branch). -/
theorem generateDeadEndBranch_subBranches (O : Oracle) (hO : ValidRand O) (w h : Nat)
    (sbc : Q) (depth : Nat) (g : GridF) (s : Pos) (ridx : Nat) :
    (generateDeadEndBranch O w h sbc depth g s ridx).subSpawns.length ≤ 3 ∧
    (∀ sp ∈ (generateDeadEndBranch O w h sbc depth g s ridx).subSpawns,
      sp.fromCell ∈ (generateDeadEndBranch O w h sbc depth g s ridx).branchCells.drop 1 ∧
      sp.startCarve.src = sp.fromCell ∧ sp.startCarve.tgt = sp.startCell ∧
      UnitDelta sp.fromCell sp.startCell ∧
      sp.startCarve.tgtVisited = false ∧ sp.startCarve.tgtSpine = false ∧
      ChainCarves sp.startCell sp.bodyCarves ∧
      (∀ c ∈ sp.bodyCarves, c.tgtVisited = false ∧ c.tgtSpine = false)) :=
  ⟨(generateDeadEndBranch_spec O hO w h sbc depth g s ridx).1,
   (generateDeadEndBranch_spec O hO w h sbc depth g s ridx).2.2⟩

/-- Witness for `generateDeadEndBranch_subBranches` at a depth-0 call. -/
theorem generateDeadEndBranch_subBranches_witness :
    (generateDeadEndBranch exO1 3 3 ⟨0, 1⟩ 0 initializeGrid ⟨0, 0⟩ 0).subSpawns.length ≤ 3 :=
  (generateDeadEndBranch_subBranches exO1 validRand_exO1 3 3 ⟨0, 1⟩ 0 initializeGrid
    ⟨0, 0⟩ 0).1

/-! ## Wall symmetry -/

theorem unitDelta_cases {p q : Pos} (h : UnitDelta p q) :
    (q.x = p.x + 1 ∧ q.y = p.y) ∨ (p.x = q.x + 1 ∧ q.y = p.y) ∨
    (q.y = p.y + 1 ∧ q.x = p.x) ∨ (p.y = q.y + 1 ∧ q.x = p.x) := by
  unfold UnitDelta manhattanDistance at h
  omega

theorem unitDelta_symm {p q : Pos} (h : UnitDelta p q) : UnitDelta q p := by
  unfold UnitDelta manhattanDistance at h ⊢
  omega

theorem removeWallBetween_self (g : GridF) (p : Pos) : removeWallBetween g p p = g := by
  unfold removeWallBetween
  norm_num

theorem removeWallBetween_symm (g : GridF) {p q : Pos} (hpq : UnitDelta p q)
    (hs : WallSymm (toOutputWalls g)) :
    WallSymm (toOutputWalls (removeWallBetween g p q)) := by
  obtain ⟨px, py⟩ := p
  obtain ⟨qx, qy⟩ := q
  unfold removeWallBetween
  dsimp only
  rcases unitDelta_cases hpq with ⟨hx, hy⟩ | ⟨hx, hy⟩ | ⟨hy, hx⟩ | ⟨hy, hx⟩ <;>
    dsimp only at hx hy
  · rw [if_pos (show ((qx : Int) - (px : Int)) = 1 by omega)]
    rintro ⟨rx, ry⟩
    obtain ⟨hr1, hr2⟩ := hs ⟨rx, ry⟩
    unfold toOutputWalls at hr1 hr2 ⊢
    unfold updateCell
    dsimp only at hr1 hr2 ⊢
    constructor
    · split_ifs <;> simp_all [Pos.mk.injEq]
    · split_ifs <;> simp_all [Pos.mk.injEq]
  · rw [if_neg (show ¬ ((qx : Int) - (px : Int)) = 1 by omega),
      if_pos (show ((qx : Int) - (px : Int)) = -1 by omega)]
    rintro ⟨rx, ry⟩
    obtain ⟨hr1, hr2⟩ := hs ⟨rx, ry⟩
    unfold toOutputWalls at hr1 hr2 ⊢
    unfold updateCell
    dsimp only at hr1 hr2 ⊢
    constructor
    · split_ifs <;> simp_all [Pos.mk.injEq]
    · split_ifs <;> simp_all [Pos.mk.injEq]
  · rw [if_neg (show ¬ ((qx : Int) - (px : Int)) = 1 by omega),
      if_neg (show ¬ ((qx : Int) - (px : Int)) = -1 by omega),
      if_pos (show ((qy : Int) - (py : Int)) = 1 by omega)]
    rintro ⟨rx, ry⟩
    obtain ⟨hr1, hr2⟩ := hs ⟨rx, ry⟩
    unfold toOutputWalls at hr1 hr2 ⊢
    unfold updateCell
    dsimp only at hr1 hr2 ⊢
    constructor
    · split_ifs <;> simp_all [Pos.mk.injEq]
    · split_ifs <;> simp_all [Pos.mk.injEq]
  · rw [if_neg (show ¬ ((qx : Int) - (px : Int)) = 1 by omega),
      if_neg (show ¬ ((qx : Int) - (px : Int)) = -1 by omega),
      if_neg (show ¬ ((qy : Int) - (py : Int)) = 1 by omega),
      if_pos (show ((qy : Int) - (py : Int)) = -1 by omega)]
    rintro ⟨rx, ry⟩
    obtain ⟨hr1, hr2⟩ := hs ⟨rx, ry⟩
    unfold toOutputWalls at hr1 hr2 ⊢
    unfold updateCell
    dsimp only at hr1 hr2 ⊢
    constructor
    · split_ifs <;> simp_all [Pos.mk.injEq]
    · split_ifs <;> simp_all [Pos.mk.injEq]

theorem wallSymm_of_walls_eq {g g' : GridF}
    (hw : ∀ q, (g' q).walls = (g q).walls)
    (hs : WallSymm (toOutputWalls g)) : WallSymm (toOutputWalls g') := by
  intro p
  unfold toOutputWalls at *
  rw [hw p, hw ⟨p.x + 1, p.y⟩, hw ⟨p.x, p.y + 1⟩]
  exact hs p

theorem wallSymm_initializeGrid : WallSymm (toOutputWalls initializeGrid) := by
  intro p
  exact ⟨rfl, rfl⟩

theorem wallSymm_carve {g : GridF} {p t : Pos} {w h : Nat}
    (ht : t ∈ getNeighbors p w h ∨ t = p)
    (hs : WallSymm (toOutputWalls g)) :
    WallSymm (toOutputWalls (removeWallBetween g p t)) := by
  rcases ht with hmem | rfl
  · exact removeWallBetween_symm g (getNeighbors_adjacent hmem) hs
  · rw [removeWallBetween_self]
    exact hs

theorem getD_mem_or (l : List Pos) (n : Nat) (d : Pos) : l.getD n d ∈ l ∨ l.getD n d = d := by
  by_cases hn : n < l.length
  · left
    rw [List.getD_eq_getElem l d hn]
    exact List.getElem_mem hn
  · right
    rw [List.getD_eq_default l d (le_of_not_lt hn)]

theorem randPick_mem_or (O : Oracle) (ridx : Nat) (l : List Pos) (dflt : Pos) :
    randPick O ridx l dflt ∈ l ∨ randPick O ridx l dflt = dflt :=
  getD_mem_or l _ dflt

/-! ## Wall symmetry is preserved by every phase -/

theorem wallSymm_removeWall {g : GridF} {p t : Pos} (ht : UnitDelta p t ∨ t = p)
    (hs : WallSymm (toOutputWalls g)) :
    WallSymm (toOutputWalls (removeWallBetween g p t)) := by
  rcases ht with hu | rfl
  · exact removeWallBetween_symm g hu hs
  · rw [removeWallBetween_self]
    exact hs

theorem wallSymm_setVisited {g : GridF} (p : Pos) (b : Bool)
    (hs : WallSymm (toOutputWalls g)) : WallSymm (toOutputWalls (setVisited g p b)) :=
  wallSymm_of_walls_eq (fun q => walls_setVisited g p b q) hs

theorem wallSymm_setSpine {g : GridF} (p : Pos) (b : Bool)
    (hs : WallSymm (toOutputWalls g)) : WallSymm (toOutputWalls (setSpine g p b)) :=
  wallSymm_of_walls_eq (fun q => walls_setSpine g p b q) hs

theorem filterUnvisited_unitDelta {g : GridF} {p n : Pos} {w h : Nat}
    (hn : n ∈ (getUnvisitedNeighbors g p w h).filter (fun q => !(g q).isSpine)) :
    UnitDelta p n :=
  getNeighbors_adjacent (getUnvisitedNeighbors_spec (List.mem_filter.1 hn).1).1

theorem randPick_unitDelta_or {p : Pos} (O : Oracle) (ridx : Nat) (l : List Pos)
    (hl : ∀ n ∈ l, UnitDelta p n) :
    UnitDelta p (randPick O ridx l p) ∨ randPick O ridx l p = p := by
  rcases randPick_mem_or O ridx l p with hm | he
  · exact Or.inl (hl _ hm)
  · exact Or.inr he

theorem wallSymm_linearDeadEnd (O : Oracle) (w h : Nat) :
    ∀ (depth : Nat) (g : GridF) (s : Pos) (ridx : Nat),
      WallSymm (toOutputWalls g) →
      WallSymm (toOutputWalls (generateLinearDeadEnd O w h depth g s ridx).1) := by
  intro depth
  induction depth with
  | zero =>
    intro g s ridx hs
    rw [generateLinearDeadEnd]
    exact hs
  | succ d ih =>
    intro g s ridx hs
    rw [generateLinearDeadEnd]
    by_cases hne : ((getUnvisitedNeighbors g s w h).filter fun n => !(g n).isSpine).isEmpty
    · rw [if_pos hne]
      exact hs
    · rw [if_neg hne]
      dsimp only
      set next := randPick O ridx
        ((getUnvisitedNeighbors g s w h).filter fun n => !(g n).isSpine) s with hnext
      have hud : UnitDelta s next ∨ next = s := by
        rw [hnext]
        exact randPick_unitDelta_or O ridx _ (fun n hn => filterUnvisited_unitDelta hn)
      rcases hrec : generateLinearDeadEnd O w h d
        (setVisited (removeWallBetween g s next) next true) next (ridx + 1)
        with ⟨g2, r2, carves2⟩
      dsimp only
      have hih := ih (setVisited (removeWallBetween g s next) next true) next (ridx + 1)
        (wallSymm_setVisited _ _ (wallSymm_removeWall hud hs))
      rw [hrec] at hih
      exact hih

theorem wallSymm_branchMainLoop (O : Oracle) (w h : Nat) :
    ∀ (steps : Nat) (g : GridF) (s : Pos) (ridx : Nat),
      WallSymm (toOutputWalls g) →
      WallSymm (toOutputWalls (branchMainLoop O w h steps g s ridx).1) := by
  intro steps
  induction steps with
  | zero =>
    intro g s ridx hs
    rw [branchMainLoop]
    exact hs
  | succ d ih =>
    intro g s ridx hs
    rw [branchMainLoop]
    by_cases hne : ((getUnvisitedNeighbors g s w h).filter fun n => !(g n).isSpine).isEmpty
    · rw [if_pos hne]
      exact hs
    · rw [if_neg hne]
      dsimp only
      set next := randPick O ridx
        ((getUnvisitedNeighbors g s w h).filter fun n => !(g n).isSpine) s with hnext
      have hud : UnitDelta s next ∨ next = s := by
        rw [hnext]
        exact randPick_unitDelta_or O ridx _ (fun n hn => filterUnvisited_unitDelta hn)
      rcases hrec : branchMainLoop O w h d
        (setVisited (removeWallBetween g s next) next true) next (ridx + 1)
        with ⟨g2, r2, cells2, carves2⟩
      dsimp only
      have hih := ih (setVisited (removeWallBetween g s next) next true) next (ridx + 1)
        (wallSymm_setVisited _ _ (wallSymm_removeWall hud hs))
      rw [hrec] at hih
      exact hih

theorem wallSymm_subBranchLoop (O : Oracle) (w h : Nat) (sbc : Q) (maxSB : Int) :
    ∀ (cells : List Pos) (added : Nat) (g : GridF) (ridx : Nat),
      WallSymm (toOutputWalls g) →
      WallSymm (toOutputWalls (subBranchLoop O w h sbc maxSB cells added g ridx).1) := by
  intro cells
  induction cells with
  | nil =>
    intro added g ridx hs
    rw [subBranchLoop]
    exact hs
  | cons cell cells ih =>
    intro added g ridx hs
    rw [subBranchLoop]
    by_cases hstop : maxSB ≤ (added : Int)
    · rw [if_pos hstop]
      exact hs
    · rw [if_neg hstop]
      by_cases hch : sbc < O.rand ridx
      · rw [if_pos hch]
        exact ih added g (ridx + 1) hs
      · rw [if_neg hch]
        by_cases hne : ((getUnvisitedNeighbors g cell w h).filter
            fun n => !(g n).isSpine).isEmpty
        · rw [if_pos hne]
          exact ih added g (ridx + 1) hs
        · rw [if_neg hne]
          dsimp only
          set subStart := randPick O (ridx + 1)
            ((getUnvisitedNeighbors g cell w h).filter fun n => !(g n).isSpine) cell
            with hss
          have hud : UnitDelta cell subStart ∨ subStart = cell := by
            rw [hss]
            exact randPick_unitDelta_or O (ridx + 1) _
              (fun n hn => filterUnvisited_unitDelta hn)
          set g1 := setVisited (removeWallBetween g cell subStart) subStart true with hg1
          rcases hlin : generateLinearDeadEnd O w h
            ((5 + (O.rand (ridx + 2) * (21 : Q)).floor - 1).toNat) g1 subStart (ridx + 3)
            with ⟨g2, r2, bodyC⟩
          rcases hsub : subBranchLoop O w h sbc maxSB cells (added + 1) g2 r2
            with ⟨g3, r3, spawns⟩
          dsimp only
          have hlinsym := wallSymm_linearDeadEnd O w h
            ((5 + (O.rand (ridx + 2) * (21 : Q)).floor - 1).toNat) g1 subStart (ridx + 3)
            (by
              rw [hg1]
              exact wallSymm_setVisited _ _ (wallSymm_removeWall hud hs))
          rw [hlin] at hlinsym
          have hih := ih (added + 1) g2 r2 hlinsym
          rw [hsub] at hih
          exact hih

theorem wallSymm_generateDeadEndBranch (O : Oracle) (w h : Nat) (sbc : Q)
    (depth : Nat) (g : GridF) (s : Pos) (ridx : Nat)
    (hs : WallSymm (toOutputWalls g)) :
    WallSymm (toOutputWalls (generateDeadEndBranch O w h sbc depth g s ridx).g) := by
  cases depth with
  | zero =>
    rw [generateDeadEndBranch]
    exact hs
  | succ d =>
    rw [generateDeadEndBranch]
    rcases hmain : branchMainLoop O w h (d + 1) g s ridx with ⟨g1, r1, grown, mcarves⟩
    dsimp only
    have hmainsym := wallSymm_branchMainLoop O w h (d + 1) g s ridx hs
    rw [hmain] at hmainsym
    by_cases hguard : (0 : Q) < sbc ∧ 1 < (s :: grown).length
    · rw [if_pos hguard]
      dsimp only
      rcases hsub : subBranchLoop O w h sbc ((O.rand r1 * (4 : Q)).floor)
        (O.shuffle (r1 + 1) ((s :: grown).drop 1)) 0 g1
        (r1 + 1 + O.shuffleCost (r1 + 1)) with ⟨g3, r3, spawns⟩
      dsimp only
      have hsym := wallSymm_subBranchLoop O w h sbc ((O.rand r1 * (4 : Q)).floor)
        (O.shuffle (r1 + 1) ((s :: grown).drop 1)) 0 g1
        (r1 + 1 + O.shuffleCost (r1 + 1)) hmainsym
      rw [hsub] at hsym
      exact hsym
    · rw [if_neg hguard]
      exact hmainsym

theorem scoreNeighbor_cell (O : Oracle) (cfg : SpineFirstConfig) (goal current : Pos)
    (tc : Nat) (ld : Option Dir) (ridx : Nat) (n : Pos) :
    (scoreNeighbor O cfg goal current tc ld ridx n).cell = n := rfl

theorem wallSymm_spineLoop (O : Oracle) (cfg : SpineFirstConfig) (goal : Pos)
    (w h mpl : Nat) :
    ∀ (fuel : Nat) (st : SpineSt), WallSymm (toOutputWalls st.g) →
      WallSymm (toOutputWalls (spineLoop O cfg goal w h mpl fuel st).g) := by
  intro fuel
  induction fuel with
  | zero =>
    intro st hs
    rw [spineLoop]
    rcases hsp : st.spine with _ | ⟨current, rest⟩
    · exact hs
    · dsimp only
      by_cases hcg : current = goal
      · rw [if_pos hcg]
        split
        · exact hs
        · split
          · exact hs
          · exact hs
      · rw [if_neg hcg]
        exact hs
  | succ f ih =>
    intro st hs
    rw [spineLoop]
    rcases hsp : st.spine with _ | ⟨current, rest⟩
    · exact hs
    · dsimp only
      by_cases hcg : current = goal
      · rw [if_pos hcg]
        split
        · exact hs
        · split
          · exact hs
          · exact hs
      · rw [if_neg hcg]
        rcases hnb : getUnvisitedNeighbors st.g current w h with _ | ⟨n0, ns⟩
        · dsimp only
          by_cases hre : rest.isEmpty
          · rw [if_pos hre]
            exact hs
          · rw [if_neg hre]
            exact ih _ (wallSymm_setSpine _ _ (wallSymm_setVisited _ _ hs))
        · dsimp only
          have hcell : (chooseBest
              (scoreNeighbor O cfg goal current st.turnCount st.lastDir st.ridx n0)
              (scoreNeighbors O cfg goal current st.turnCount st.lastDir (st.ridx + 1) ns)).cell
              ∈ n0 :: ns := by
            rcases chooseBest_mem
                (scoreNeighbor O cfg goal current st.turnCount st.lastDir st.ridx n0)
                (scoreNeighbors O cfg goal current st.turnCount st.lastDir (st.ridx + 1) ns)
              with heq | hmem
            · rw [heq, scoreNeighbor_cell]
              exact List.mem_cons_self _ _
            · exact List.mem_cons_of_mem _
                (scoreNeighbors_cells O cfg goal current st.turnCount st.lastDir ns
                  (st.ridx + 1) _ hmem)
          rw [← hnb] at hcell
          have hud : UnitDelta current (chooseBest
              (scoreNeighbor O cfg goal current st.turnCount st.lastDir st.ridx n0)
              (scoreNeighbors O cfg goal current st.turnCount st.lastDir (st.ridx + 1) ns)).cell :=
            getNeighbors_adjacent (getUnvisitedNeighbors_spec hcell).1
          exact ih _ (wallSymm_setSpine _ _ (wallSymm_setVisited _ _
            (wallSymm_removeWall (Or.inl hud) hs)))

theorem wallSymm_generateSpine (O : Oracle) (g : GridF) (start goal : Pos)
    (w h : Nat) (cfg : SpineFirstConfig) (ridx : Nat)
    (hs : WallSymm (toOutputWalls g)) :
    WallSymm (toOutputWalls (generateSpine O g start goal w h cfg ridx).g) := by
  rw [generateSpine]
  exact wallSymm_spineLoop O cfg goal w h _ _ _
    (wallSymm_setSpine _ _ (wallSymm_setVisited _ _ hs))

theorem wallSymm_branchesStep (O : Oracle) (w h : Nat) (cfg : SpineFirstConfig)
    (spine : List Pos) (i : Nat) (lbi : Int) (g : GridF) (ridx : Nat)
    (hs : WallSymm (toOutputWalls g)) :
    WallSymm (toOutputWalls (branchesStep O w h cfg spine i lbi g ridx).1) := by
  unfold branchesStep
  dsimp only
  by_cases h1 : (i : Int) - lbi < cfg.minBranchSpacing.getD 5
  · rw [if_pos h1]
    exact hs
  · rw [if_neg h1]
    by_cases h2 : cfg.branchChance < O.rand ridx
    · rw [if_pos h2]
      exact hs
    · rw [if_neg h2]
      by_cases h3 : ((getUnvisitedNeighbors g (spine.getD i ⟨0, 0⟩) w h).filter
          fun n => !(g n).isSpine).isEmpty
      · rw [if_pos h3]
        exact hs
      · rw [if_neg h3]
        dsimp only
        set branchStart := randPick O (ridx + 1)
          ((getUnvisitedNeighbors g (spine.getD i ⟨0, 0⟩) w h).filter
            fun n => !(g n).isSpine) (spine.getD i ⟨0, 0⟩) with hbs
        have hud : UnitDelta (spine.getD i ⟨0, 0⟩) branchStart ∨
            branchStart = spine.getD i ⟨0, 0⟩ := by
          rw [hbs]
          exact randPick_unitDelta_or O (ridx + 1) _
            (fun n hn => filterUnvisited_unitDelta hn)
        exact wallSymm_generateDeadEndBranch O w h _ _ _ _ _
          (wallSymm_setVisited _ _ (wallSymm_removeWall hud hs))

theorem wallSymm_branchesLoop (O : Oracle) (w h : Nat) (cfg : SpineFirstConfig)
    (spine : List Pos) :
    ∀ (idxs : List Nat) (lbi : Int) (g : GridF) (ridx : Nat),
      WallSymm (toOutputWalls g) →
      WallSymm (toOutputWalls (branchesLoop O w h cfg spine idxs lbi g ridx).g) := by
  intro idxs
  induction idxs with
  | nil =>
    intro lbi g ridx hs
    rw [branchesLoop]
    exact hs
  | cons i idxs ih =>
    intro lbi g ridx hs
    rw [branchesLoop]
    rcases hstep : branchesStep O w h cfg spine i lbi g ridx with ⟨g1, r1, lbi1, cs1⟩
    dsimp only
    have h1 := wallSymm_branchesStep O w h cfg spine i lbi g ridx hs
    rw [hstep] at h1
    exact ih lbi1 g1 r1 h1

theorem wallSymm_generateBranches (O : Oracle) (g : GridF) (spine : List Pos)
    (w h : Nat) (cfg : SpineFirstConfig) (ridx : Nat)
    (hs : WallSymm (toOutputWalls g)) :
    WallSymm (toOutputWalls (generateBranches O g spine w h cfg ridx).g) := by
  rw [generateBranches]
  exact wallSymm_branchesLoop O w h cfg spine _ _ g ridx hs

theorem wallSymm_dfsLoop (O : Oracle) (w h : Nat) :
    ∀ (fuel : Nat) (stack : List Pos) (g : GridF) (ridx : Nat),
      WallSymm (toOutputWalls g) →
      WallSymm (toOutputWalls (dfsLoop O w h fuel stack g ridx).1) := by
  intro fuel
  induction fuel with
  | zero =>
    intro stack g ridx hs
    rw [dfsLoop]
    exact hs
  | succ f ih =>
    intro stack g ridx hs
    cases stack with
    | nil =>
      rw [dfsLoop]
      exact hs
    | cons current stack =>
      rw [dfsLoop]
      by_cases hne : (getUnvisitedNeighbors g current w h).isEmpty
      · rw [if_pos hne]
        exact ih stack g ridx hs
      · rw [if_neg hne]
        dsimp only
        set next := randPick O ridx (getUnvisitedNeighbors g current w h) current with hn
        have hud : UnitDelta current next ∨ next = current := by
          rw [hn]
          exact randPick_unitDelta_or O ridx _
            (fun n hn2 => getNeighbors_adjacent (getUnvisitedNeighbors_spec hn2).1)
        exact ih _ _ _ (wallSymm_setVisited _ _ (wallSymm_removeWall hud hs))

theorem wallSymm_fillAreaDFS (O : Oracle) (g : GridF) (s : Pos) (w h : Nat)
    (ridx : Nat) (hs : WallSymm (toOutputWalls g)) :
    WallSymm (toOutputWalls (fillAreaDFS O g s w h ridx).1) := by
  rw [fillAreaDFS]
  exact wallSymm_dfsLoop O w h _ _ g ridx hs

theorem wallSymm_fillPass1 (O : Oracle) (w h : Nat) :
    ∀ (ps : List Pos) (g : GridF) (ridx : Nat),
      WallSymm (toOutputWalls g) →
      WallSymm (toOutputWalls (fillPass1 O w h ps g ridx).1) := by
  intro ps
  induction ps with
  | nil =>
    intro g ridx hs
    rw [fillPass1]
    exact hs
  | cons p ps ih =>
    intro g ridx hs
    rw [fillPass1]
    by_cases hv : (g p).visited
    · rw [if_pos hv]
      exact ih g ridx hs
    · rw [if_neg hv]
      by_cases hne : ((getNeighbors p w h).filter (fun n => (g n).visited)).isEmpty
      · rw [if_pos hne]
        exact ih g ridx hs
      · rw [if_neg hne]
        dsimp only
        set connector := randPick O ridx
          ((getNeighbors p w h).filter fun n => (g n).visited) p with hc
        have hud : UnitDelta connector p ∨ p = connector := by
          rcases randPick_mem_or O ridx
              ((getNeighbors p w h).filter fun n => (g n).visited) p with hm | he
          · rw [hc]
            exact Or.inl (unitDelta_symm
              (getNeighbors_adjacent (List.mem_filter.1 hm).1))
          · rw [hc, he]
            exact Or.inr rfl
        rcases hfill : fillAreaDFS O
            (setVisited (removeWallBetween g connector p) p true) p w h (ridx + 1)
          with ⟨g2, r2⟩
        dsimp only
        have hsym := wallSymm_fillAreaDFS O
          (setVisited (removeWallBetween g connector p) p true) p w h (ridx + 1)
          (wallSymm_setVisited _ _ (wallSymm_removeWall hud hs))
        rw [hfill] at hsym
        exact ih g2 r2 hsym

theorem wallSymm_fillPass2 (O : Oracle) (w h : Nat) :
    ∀ (ps : List Pos) (g : GridF) (ridx : Nat),
      WallSymm (toOutputWalls g) →
      WallSymm (toOutputWalls (fillPass2 O w h ps g ridx).1) := by
  intro ps
  induction ps with
  | nil =>
    intro g ridx hs
    rw [fillPass2]
    exact hs
  | cons p ps ih =>
    intro g ridx hs
    rw [fillPass2]
    by_cases hv : (g p).visited
    · rw [if_pos hv]
      exact ih g ridx hs
    · rw [if_neg hv]
      dsimp only
      rcases hfill : fillAreaDFS O (setVisited g p true) p w h ridx with ⟨g2, r2⟩
      dsimp only
      have hsym := wallSymm_fillAreaDFS O (setVisited g p true) p w h ridx
        (wallSymm_setVisited _ _ hs)
      rw [hfill] at hsym
      by_cases hne : ((getNeighbors p w h).filter (fun n => (g2 n).visited)).isEmpty
      · rw [if_pos hne]
        exact ih g2 r2 hsym
      · rw [if_neg hne]
        set connector := randPick O r2
          ((getNeighbors p w h).filter fun n => (g2 n).visited) p with hc
        have hud : UnitDelta connector p ∨ p = connector := by
          rcases randPick_mem_or O r2
              ((getNeighbors p w h).filter fun n => (g2 n).visited) p with hm | he
          · rw [hc]
            exact Or.inl (unitDelta_symm
              (getNeighbors_adjacent (List.mem_filter.1 hm).1))
          · rw [hc, he]
            exact Or.inr rfl
        exact ih _ _ (wallSymm_removeWall hud hsym)

theorem wallSymm_fillRemainingAreas (O : Oracle) (g : GridF) (w h : Nat)
    (ridx : Nat) (hs : WallSymm (toOutputWalls g)) :
    WallSymm (toOutputWalls (fillRemainingAreas O g w h ridx).1) := by
  rw [fillRemainingAreas]
  rcases h1 : fillPass1 O w h (gridPositions w h) g ridx with ⟨g1, r1⟩
  dsimp only
  have hsym := wallSymm_fillPass1 O w h (gridPositions w h) g ridx hs
  rw [h1] at hsym
  exact wallSymm_fillPass2 O w h (gridPositions w h) g1 r1 hsym

theorem wallSymm_pipeline (O : Oracle) (w h : Nat) (start goal : Pos)
    (cfg : SpineFirstConfig) (W : Pos → Walls)
    (hW : generateSpineFirstMaze O w h start goal cfg = some W) : WallSymm W := by
  unfold generateSpineFirstMaze generateSpineFirstMazeRun at hW
  dsimp only at hW
  rcases hsp : (generateSpine O initializeGrid start goal w h cfg 0).spine with _ | spine
  · rw [hsp] at hW
    exact absurd hW (by simp)
  · rw [hsp] at hW
    dsimp only at hW
    have hs1 := wallSymm_generateSpine O initializeGrid start goal w h cfg 0
      wallSymm_initializeGrid
    have hs2 := wallSymm_generateBranches O (generateSpine O initializeGrid start goal w h cfg 0).g
      spine w h cfg (generateSpine O initializeGrid start goal w h cfg 0).ridx hs1
    by_cases hfill : cfg.fillRemaining
    · rw [if_pos hfill] at hW
      rcases hfr : fillRemainingAreas O
          (generateBranches O (generateSpine O initializeGrid start goal w h cfg 0).g
            spine w h cfg (generateSpine O initializeGrid start goal w h cfg 0).ridx).g w h
          (generateBranches O (generateSpine O initializeGrid start goal w h cfg 0).g
            spine w h cfg (generateSpine O initializeGrid start goal w h cfg 0).ridx).ridx
        with ⟨gf, rf⟩
      rw [hfr] at hW
      dsimp only at hW
      have hs3 := wallSymm_fillRemainingAreas O
        (generateBranches O (generateSpine O initializeGrid start goal w h cfg 0).g
          spine w h cfg (generateSpine O initializeGrid start goal w h cfg 0).ridx).g w h
        (generateBranches O (generateSpine O initializeGrid start goal w h cfg 0).g
          spine w h cfg (generateSpine O initializeGrid start goal w h cfg 0).ridx).ridx hs2
      rw [hfr] at hs3
      obtain rfl := Option.some.inj hW
      exact hs3
    · rw [if_neg hfill] at hW
      dsimp only at hW
      obtain rfl := Option.some.inj hW
      exact hs2

/-- C5: wall symmetry is an invariant of the generation: the fully-walled
initial grid is symmetric, every `removeWallBetween` call on a pair of
adjacent cells preserves symmetry, and every grid `generateSpineFirstMaze`
returns is symmetric — for each pair of adjacent cells A and B, A's wall
facing B is open exactly when B's wall facing A is. -/
theorem wall_symmetry_invariant :
    WallSymm (toOutputWalls initializeGrid) ∧
    (∀ (g : GridF) (p q : Pos), UnitDelta p q → WallSymm (toOutputWalls g) →
      WallSymm (toOutputWalls (removeWallBetween g p q))) ∧
    (∀ (O : Oracle) (w h : Nat) (start goal : Pos) (cfg : SpineFirstConfig)
      (W : Pos → Walls), generateSpineFirstMaze O w h start goal cfg = some W →
      WallSymm W) :=
  ⟨wallSymm_initializeGrid,
    fun g _ _ hpq hs => removeWallBetween_symm g hpq hs,
    fun O w h start goal cfg W hW => wallSymm_pipeline O w h start goal cfg W hW⟩

/-- C5 witness: the invariant applied to the concrete 2×2 filled run: the
maze that run returns is wall-symmetric. -/
theorem wall_symmetry_invariant_witness : WallSymm (toOutputWalls run3Grid) :=
  wall_symmetry_invariant.2.2 exO3 2 2 ⟨0, 0⟩ ⟨1, 1⟩ cfg3 (toOutputWalls run3Grid) run3_maze

/-! ## Reachability machinery for the fill phase -/

theorem visited_updateCell (g : GridF) (p : Pos) (f : SCell → SCell)
    (hf : ∀ c, (f c).visited = c.visited) (q : Pos) :
    ((updateCell g p f) q).visited = (g q).visited := by
  unfold updateCell
  split
  · exact hf _
  · rfl

theorem visited_removeWallBetween (g : GridF) (cur t q : Pos) :
    ((removeWallBetween g cur t) q).visited = (g q).visited := by
  unfold removeWallBetween updateCell
  dsimp only
  split_ifs <;> (try dsimp only) <;> (try split_ifs) <;> rfl

theorem visited_setSpine (g : GridF) (p : Pos) (b : Bool) (q : Pos) :
    ((setSpine g p b) q).visited = (g q).visited := by
  unfold setSpine updateCell
  split <;> rfl

theorem visited_setVisited (g : GridF) (p : Pos) (b : Bool) (q : Pos) :
    ((setVisited g p b) q).visited = if q = p then b else (g q).visited := by
  unfold setVisited updateCell
  split <;> rfl

theorem toOutputWalls_setVisited (g : GridF) (p : Pos) (b : Bool) :
    toOutputWalls (setVisited g p b) = toOutputWalls g :=
  funext (fun q => walls_setVisited g p b q)

theorem toOutputWalls_setSpine (g : GridF) (p : Pos) (b : Bool) :
    toOutputWalls (setSpine g p b) = toOutputWalls g :=
  funext (fun q => walls_setSpine g p b q)

theorem openLe_removeWallBetween (g : GridF) (cur t : Pos) :
    OpenLe (toOutputWalls g) (toOutputWalls (removeWallBetween g cur t)) := by
  intro p
  unfold removeWallBetween toOutputWalls updateCell
  dsimp only
  split_ifs <;> (try dsimp only) <;> (try split_ifs) <;> simp_all

theorem openAdj_mono {W W' : Pos → Walls} (hle : OpenLe W W') {p q : Pos}
    (h : openAdj W p q) : openAdj W' p q := by
  obtain ⟨h1, h2, h3, h4⟩ := hle p
  rcases h with ⟨a, b, c⟩ | ⟨a, b, c⟩ | ⟨a, b, c⟩ | ⟨a, b, c⟩
  · exact Or.inl ⟨a, b, h2 c⟩
  · exact Or.inr (Or.inl ⟨a, b, h4 c⟩)
  · exact Or.inr (Or.inr (Or.inl ⟨a, b, h3 c⟩))
  · exact Or.inr (Or.inr (Or.inr ⟨a, b, h1 c⟩))

theorem reachW_mono {W W' : Pos → Walls} (hle : OpenLe W W') {p q : Pos}
    (h : ReachW W p q) : ReachW W' p q :=
  Relation.ReflTransGen.mono (fun _ _ hr => openAdj_mono hle hr) h

theorem removeWallBetween_opens {g : GridF} {cur t : Pos} (hud : UnitDelta cur t) :
    openAdj (toOutputWalls (removeWallBetween g cur t)) cur t := by
  obtain ⟨cx, cy⟩ := cur
  obtain ⟨tx, ty⟩ := t
  unfold removeWallBetween
  dsimp only
  rcases unitDelta_cases hud with ⟨hx, hy⟩ | ⟨hx, hy⟩ | ⟨hy, hx⟩ | ⟨hy, hx⟩ <;>
    dsimp only at hx hy
  · rw [if_pos (show ((tx : Int) - (cx : Int)) = 1 by omega)]
    refine Or.inl ⟨hx, hy, ?_⟩
    unfold toOutputWalls updateCell
    split_ifs <;> simp_all [Pos.mk.injEq]
  · rw [if_neg (show ¬ ((tx : Int) - (cx : Int)) = 1 by omega),
      if_pos (show ((tx : Int) - (cx : Int)) = -1 by omega)]
    refine Or.inr (Or.inl ⟨hx, hy, ?_⟩)
    unfold toOutputWalls updateCell
    split_ifs <;> simp_all [Pos.mk.injEq]
  · rw [if_neg (show ¬ ((tx : Int) - (cx : Int)) = 1 by omega),
      if_neg (show ¬ ((tx : Int) - (cx : Int)) = -1 by omega),
      if_pos (show ((ty : Int) - (cy : Int)) = 1 by omega)]
    refine Or.inr (Or.inr (Or.inl ⟨hy, hx, ?_⟩))
    unfold toOutputWalls updateCell
    split_ifs <;> simp_all [Pos.mk.injEq]
  · rw [if_neg (show ¬ ((tx : Int) - (cx : Int)) = 1 by omega),
      if_neg (show ¬ ((tx : Int) - (cx : Int)) = -1 by omega),
      if_neg (show ¬ ((ty : Int) - (cy : Int)) = 1 by omega),
      if_pos (show ((ty : Int) - (cy : Int)) = -1 by omega)]
    refine Or.inr (Or.inr (Or.inr ⟨hy, hx, ?_⟩))
    unfold toOutputWalls updateCell
    split_ifs <;> simp_all [Pos.mk.injEq]

theorem startInv_carveMark {start : Pos} {g : GridF} {cur t : Pos}
    (hcur : (g cur).visited = true) (hud : UnitDelta cur t)
    (hinv : StartInv start g) :
    StartInv start (setVisited (removeWallBetween g cur t) t true) := by
  intro c hc
  rw [toOutputWalls_setVisited]
  by_cases hct : c = t
  · subst hct
    exact (reachW_mono (openLe_removeWallBetween g cur c) (hinv cur hcur)).tail
      (removeWallBetween_opens hud)
  · rw [visited_setVisited, if_neg hct, visited_removeWallBetween] at hc
    exact reachW_mono (openLe_removeWallBetween g cur t) (hinv c hc)

theorem startInv_setSpine {start : Pos} {g : GridF} (p : Pos) (b : Bool)
    (hinv : StartInv start g) : StartInv start (setSpine g p b) := by
  intro c hc
  rw [toOutputWalls_setSpine]
  rw [visited_setSpine] at hc
  exact hinv c hc

theorem startInv_unvisit {start : Pos} {g : GridF} (p : Pos)
    (hinv : StartInv start g) : StartInv start (setVisited g p false) := by
  intro c hc
  rw [toOutputWalls_setVisited]
  rw [visited_setVisited] at hc
  split at hc
  · exact absurd hc (by simp)
  · exact hinv c hc

/-! ## Grid geometry: neighbours, paths, cell counting -/

theorem mem_ite_single {a b : Pos} {c : Prop} [Decidable c]
    (h : a ∈ (if c then [b] else [])) : c ∧ a = b := by
  split at h
  · exact ⟨by assumption, by simpa using h⟩
  · exact absurd h (by simp)

theorem mem_getNeighbors_up {p : Pos} {w h : Nat} (hy : 0 < p.y) :
    Pos.mk p.x (p.y - 1) ∈ getNeighbors p w h := by
  unfold getNeighbors
  rw [if_pos hy]
  exact List.mem_append_left _ (List.mem_append_left _
    (List.mem_append_left _ (List.mem_singleton_self _)))

theorem mem_getNeighbors_right {p : Pos} {w h : Nat} (hx : p.x + 1 < w) :
    Pos.mk (p.x + 1) p.y ∈ getNeighbors p w h := by
  unfold getNeighbors
  rw [if_pos hx]
  exact List.mem_append_left _ (List.mem_append_left _
    (List.mem_append_right _ (List.mem_singleton_self _)))

theorem mem_getNeighbors_down {p : Pos} {w h : Nat} (hy : p.y + 1 < h) :
    Pos.mk p.x (p.y + 1) ∈ getNeighbors p w h := by
  unfold getNeighbors
  rw [if_pos hy]
  exact List.mem_append_left _ (List.mem_append_right _ (List.mem_singleton_self _))

theorem mem_getNeighbors_left {p : Pos} {w h : Nat} (hx : 0 < p.x) :
    Pos.mk (p.x - 1) p.y ∈ getNeighbors p w h := by
  unfold getNeighbors
  rw [if_pos hx]
  exact List.mem_append_right _ (List.mem_singleton_self _)

theorem mem_getNeighbors_of {w h : Nat} {p n : Pos} (hn : InBounds w h n)
    (hu : UnitDelta p n) : n ∈ getNeighbors p w h := by
  obtain ⟨px, py⟩ := p
  obtain ⟨nx, ny⟩ := n
  obtain ⟨hnx, hny⟩ := hn
  dsimp only at hnx hny
  rcases unitDelta_cases hu with ⟨hx, hy⟩ | ⟨hx, hy⟩ | ⟨hy, hx⟩ | ⟨hy, hx⟩ <;>
    dsimp only at hx hy
  · rw [show (Pos.mk nx ny) = Pos.mk (px + 1) py by rw [hx, hy]]
    exact @mem_getNeighbors_right ⟨px, py⟩ w h (show px + 1 < w by omega)
  · rw [show (Pos.mk nx ny) = Pos.mk (px - 1) py by
      simp only [Pos.mk.injEq]
      omega]
    exact @mem_getNeighbors_left ⟨px, py⟩ w h (show 0 < px by omega)
  · rw [show (Pos.mk nx ny) = Pos.mk px (py + 1) by rw [hx, hy]]
    exact @mem_getNeighbors_down ⟨px, py⟩ w h (show py + 1 < h by omega)
  · rw [show (Pos.mk nx ny) = Pos.mk px (py - 1) by
      simp only [Pos.mk.injEq]
      omega]
    exact @mem_getNeighbors_up ⟨px, py⟩ w h (show 0 < py by omega)

theorem getNeighbors_symm {w h : Nat} {p n : Pos} (hp : InBounds w h p)
    (hn : n ∈ getNeighbors p w h) : p ∈ getNeighbors n w h :=
  mem_getNeighbors_of hp (unitDelta_symm (getNeighbors_adjacent hn))

theorem getNeighbors_inBounds {w h : Nat} {p n : Pos} (hp : InBounds w h p)
    (hn : n ∈ getNeighbors p w h) : InBounds w h n := by
  obtain ⟨hpx, hpy⟩ := hp
  unfold getNeighbors at hn
  simp only [List.mem_append] at hn
  rcases hn with ((h1 | h2) | h3) | h4
  · obtain ⟨hc, rfl⟩ := mem_ite_single h1
    exact ⟨show p.x < w from hpx, show p.y - 1 < h by omega⟩
  · obtain ⟨hc, rfl⟩ := mem_ite_single h2
    exact ⟨show p.x + 1 < w from hc, show p.y < h from hpy⟩
  · obtain ⟨hc, rfl⟩ := mem_ite_single h3
    exact ⟨show p.x < w from hpx, show p.y + 1 < h from hc⟩
  · obtain ⟨hc, rfl⟩ := mem_ite_single h4
    exact ⟨show p.x - 1 < w by omega, show p.y < h from hpy⟩

theorem exists_closer_neighbor {w h : Nat} {start c : Pos} (hs : InBounds w h start)
    (hc : InBounds w h c) (hne : c ≠ start) :
    ∃ c', c' ∈ getNeighbors c w h ∧
      manhattanDistance start c' < manhattanDistance start c := by
  obtain ⟨hsx, hsy⟩ := hs
  obtain ⟨hcx, hcy⟩ := hc
  by_cases hx1 : start.x < c.x
  · refine ⟨Pos.mk (c.x - 1) c.y, mem_getNeighbors_left (by omega), ?_⟩
    unfold manhattanDistance
    dsimp only
    omega
  · by_cases hx2 : c.x < start.x
    · refine ⟨Pos.mk (c.x + 1) c.y, mem_getNeighbors_right (by omega), ?_⟩
      unfold manhattanDistance
      dsimp only
      omega
    · by_cases hy1 : start.y < c.y
      · refine ⟨Pos.mk c.x (c.y - 1), mem_getNeighbors_up (by omega), ?_⟩
        unfold manhattanDistance
        dsimp only
        omega
      · by_cases hy2 : c.y < start.y
        · refine ⟨Pos.mk c.x (c.y + 1), mem_getNeighbors_down (by omega), ?_⟩
          unfold manhattanDistance
          dsimp only
          omega
        · exfalso
          apply hne
          obtain ⟨cx, cy⟩ := c
          obtain ⟨sx, sy⟩ := start
          dsimp only at hx1 hx2 hy1 hy2
          simp only [Pos.mk.injEq]
          omega

theorem mem_gridPositions {w h : Nat} {p : Pos} :
    p ∈ gridPositions w h ↔ InBounds w h p := by
  unfold gridPositions
  rw [List.mem_flatMap]
  constructor
  · rintro ⟨y, hy, hm⟩
    rw [List.mem_map] at hm
    obtain ⟨x, hx, rfl⟩ := hm
    rw [List.mem_range] at hy hx
    exact ⟨hx, hy⟩
  · intro hb
    exact ⟨p.y, List.mem_range.2 hb.2,
      List.mem_map.2 ⟨p.x, List.mem_range.2 hb.1, by cases p; rfl⟩⟩

theorem nodup_gridPositions (w h : Nat) : (gridPositions w h).Nodup := by
  unfold gridPositions
  refine List.nodup_flatMap.2 ⟨fun y _ => ?_, ?_⟩
  · exact (List.nodup_range w).map (fun a b hab => congrArg Pos.x hab)
  · refine (List.nodup_range h).imp ?_
    intro y1 y2 hne p hp1 hp2
    obtain ⟨x1, _, rfl⟩ := List.mem_map.1 hp1
    obtain ⟨x2, _, he⟩ := List.mem_map.1 hp2
    simp only [Pos.mk.injEq] at he
    exact hne he.2.symm

theorem length_gridPositions (w h : Nat) : (gridPositions w h).length = h * w := by
  unfold gridPositions
  induction h with
  | zero => simp
  | succ n ih =>
    rw [List.range_succ, List.flatMap_append, List.length_append, ih]
    simp [Nat.succ_mul]

theorem length_filter_update {l : List Pos} {p : Pos}
    (hl : l.Nodup) (hp : p ∈ l) (P P' : Pos → Bool) (hPp : P p = true)
    (hP'p : P' p = false) (hsame : ∀ q, q ≠ p → P' q = P q) :
    (l.filter P').length + 1 = (l.filter P).length := by
  induction l with
  | nil => exact absurd hp (List.not_mem_nil p)
  | cons a l ih =>
    rw [List.nodup_cons] at hl
    rcases List.mem_cons.1 hp with rfl | hpl
    · have hfe : l.filter P' = l.filter P :=
        List.filter_congr (fun q hq => hsame q (fun hqp => hl.1 (hqp ▸ hq)))
      rw [List.filter_cons, List.filter_cons, hPp, hP'p]
      simp [hfe]
    · have hrec := ih hl.2 hpl
      have ha' : P' a = P a := hsame a (fun hap => hl.1 (hap ▸ hpl))
      rw [List.filter_cons, List.filter_cons, ha']
      by_cases hPa : P a = true
      · rw [if_pos hPa, if_pos hPa, List.length_cons, List.length_cons]
        omega
      · rw [if_neg hPa, if_neg hPa]
        exact hrec

theorem unvisitedCount_le (g : GridF) (w h : Nat) : unvisitedCount g w h ≤ h * w := by
  unfold unvisitedCount
  rw [← length_gridPositions w h]
  exact List.length_filter_le _ _

theorem unvisitedCount_setVisited {g : GridF} {w h : Nat} {p : Pos}
    (hb : InBounds w h p) (hv : (g p).visited = false) :
    unvisitedCount (setVisited g p true) w h + 1 = unvisitedCount g w h := by
  unfold unvisitedCount
  exact length_filter_update (nodup_gridPositions w h) (mem_gridPositions.2 hb)
    (fun q => !(g q).visited) (fun q => !((setVisited g p true) q).visited)
    (by dsimp only; rw [hv]; rfl)
    (by dsimp only; rw [visited_setVisited, if_pos rfl]; rfl)
    (fun q hq => by dsimp only; rw [visited_setVisited, if_neg hq])

theorem unvisitedCount_congr {g g' : GridF} (w h : Nat)
    (hv : ∀ q, (g' q).visited = (g q).visited) :
    unvisitedCount g' w h = unvisitedCount g w h := by
  unfold unvisitedCount
  rw [List.filter_congr (fun q _ => by rw [hv q])]

theorem getUnvisitedNeighbors_mono_empty {g g' : GridF} {c : Pos} {w h : Nat}
    (hmono : ∀ q, (g q).visited = true → (g' q).visited = true)
    (he : getUnvisitedNeighbors g c w h = []) :
    getUnvisitedNeighbors g' c w h = [] := by
  unfold getUnvisitedNeighbors at he ⊢
  rw [List.filter_eq_nil_iff] at he ⊢
  intro n hn
  have h1 := he n hn
  have h2 : (g n).visited = true := by simpa using h1
  simp [hmono n h2]

theorem fillPass2_id (O : Oracle) (w h : Nat) :
    ∀ (ps : List Pos) (g : GridF) (ridx : Nat),
      (∀ p ∈ ps, (g p).visited = true) →
      fillPass2 O w h ps g ridx = (g, ridx) := by
  intro ps
  induction ps with
  | nil =>
    intro g ridx _
    rw [fillPass2]
  | cons p ps ih =>
    intro g ridx hall
    rw [fillPass2, if_pos (hall p (List.mem_cons_self _ _))]
    exact ih g ridx (fun q hq => hall q (List.mem_cons_of_mem _ hq))

theorem allVisited_of_noFrontier {w h : Nat} {g : GridF} {start : Pos}
    (hsb : InBounds w h start) (hsv : (g start).visited = true)
    (hnf : ∀ q, InBounds w h q → (g q).visited = false →
      (getNeighbors q w h).filter (fun n => (g n).visited) = []) :
    ∀ c, InBounds w h c → (g c).visited = true := by
  suffices H : ∀ n c, manhattanDistance start c = n → InBounds w h c →
      (g c).visited = true by
    intro c hc
    exact H (manhattanDistance start c) c rfl hc
  intro n
  induction n using Nat.strong_induction_on with
  | _ n ih =>
    intro c hd hc
    by_cases hcs : c = start
    · rw [hcs]
      exact hsv
    · obtain ⟨c', hc'mem, hc'lt⟩ := exists_closer_neighbor hsb hc hcs
      have hc'b : InBounds w h c' := getNeighbors_inBounds hc hc'mem
      have hc'v : (g c').visited = true :=
        ih (manhattanDistance start c') (by omega) c' rfl hc'b
      by_cases hv : (g c).visited = true
      · exact hv
      · have hnil := hnf c hc (by simpa using hv)
        have hmem : c' ∈ (getNeighbors c w h).filter (fun n => (g n).visited) :=
          List.mem_filter.2 ⟨hc'mem, hc'v⟩
        rw [hnil] at hmem
        exact absurd hmem (List.not_mem_nil c')

/-! ## DFS fill: termination and completeness -/

theorem dfsLoop_master (O : Oracle) (hO : ValidRand O) (w h : Nat) (start : Pos) :
    ∀ (fuel : Nat) (stack : List Pos) (g : GridF) (ridx : Nat),
      (∀ c ∈ stack, (g c).visited = true) →
      (∀ c ∈ stack, InBounds w h c) →
      StartInv start g →
      2 * unvisitedCount g w h + stack.length ≤ fuel →
      (∀ q, (g q).visited = true → ((dfsLoop O w h fuel stack g ridx).1 q).visited = true) ∧
      StartInv start (dfsLoop O w h fuel stack g ridx).1 ∧
      (∀ c ∈ stack, getUnvisitedNeighbors (dfsLoop O w h fuel stack g ridx).1 c w h = []) ∧
      (∀ c, ((dfsLoop O w h fuel stack g ridx).1 c).visited = true →
        (g c).visited = false →
        getUnvisitedNeighbors (dfsLoop O w h fuel stack g ridx).1 c w h = []) := by
  intro fuel
  induction fuel with
  | zero =>
    intro stack g ridx hvis hbnd hinv hfuel
    have hstack : stack = [] := List.length_eq_zero.1 (by omega)
    subst hstack
    rw [dfsLoop]
    refine ⟨fun q hq => hq, hinv, fun c hc => absurd hc (List.not_mem_nil c), ?_⟩
    intro c h1 h2
    rw [h1] at h2
    exact absurd h2 (by simp)
  | succ f ih =>
    intro stack g ridx hvis hbnd hinv hfuel
    cases stack with
    | nil =>
      rw [dfsLoop]
      refine ⟨fun q hq => hq, hinv, fun c hc => absurd hc (List.not_mem_nil c), ?_⟩
      intro c h1 h2
      rw [h1] at h2
      exact absurd h2 (by simp)
    | cons current stack =>
      rw [dfsLoop]
      by_cases hne : (getUnvisitedNeighbors g current w h).isEmpty
      · rw [if_pos hne]
        have hcur0 : getUnvisitedNeighbors g current w h = [] := by
          simpa [List.isEmpty_iff] using hne
        obtain ⟨hmono, hinv2, hsd, hnd⟩ := ih stack g ridx
          (fun c hc => hvis c (List.mem_cons_of_mem _ hc))
          (fun c hc => hbnd c (List.mem_cons_of_mem _ hc))
          hinv
          (by simp only [List.length_cons] at hfuel; omega)
        refine ⟨hmono, hinv2, ?_, hnd⟩
        intro c hc
        rcases List.mem_cons.1 hc with rfl | hc2
        · exact getUnvisitedNeighbors_mono_empty hmono hcur0
        · exact hsd c hc2
      · rw [if_neg hne]
        dsimp only
        have hnil : getUnvisitedNeighbors g current w h ≠ [] := by
          simpa [List.isEmpty_iff] using hne
        set next := randPick O ridx (getUnvisitedNeighbors g current w h) current
          with hnext
        have hmem : next ∈ getUnvisitedNeighbors g current w h :=
          randPick_mem hO ridx _ current hnil
        obtain ⟨hnadj, hnvis⟩ := getUnvisitedNeighbors_spec hmem
        have hcurb : InBounds w h current := hbnd current (List.mem_cons_self _ _)
        have hnb : InBounds w h next := getNeighbors_inBounds hcurb hnadj
        have hcurv : (g current).visited = true := hvis current (List.mem_cons_self _ _)
        have hud : UnitDelta current next := getNeighbors_adjacent hnadj
        have hv2 : ∀ q, ((setVisited (removeWallBetween g current next) next true) q).visited
            = if q = next then true else (g q).visited := by
          intro q
          rw [visited_setVisited, visited_removeWallBetween]
        have e1 : unvisitedCount (setVisited (removeWallBetween g current next) next true) w h
            + 1 = unvisitedCount (removeWallBetween g current next) w h :=
          unvisitedCount_setVisited hnb (by rw [visited_removeWallBetween]; exact hnvis)
        have e2 : unvisitedCount (removeWallBetween g current next) w h
            = unvisitedCount g w h :=
          unvisitedCount_congr w h (fun q => visited_removeWallBetween g current next q)
        obtain ⟨hmono, hinv2, hsd, hnd⟩ := ih (next :: current :: stack)
          (setVisited (removeWallBetween g current next) next true) (ridx + 1)
          (by
            intro c hc
            rw [hv2 c]
            by_cases hcn : c = next
            · rw [if_pos hcn]
            · rw [if_neg hcn]
              rcases List.mem_cons.1 hc with rfl | hc2
              · exact absurd rfl hcn
              · exact hvis c hc2)
          (by
            intro c hc
            rcases List.mem_cons.1 hc with rfl | hc2
            · exact hnb
            · exact hbnd c hc2)
          (startInv_carveMark hcurv hud hinv)
          (by
            simp only [List.length_cons] at hfuel ⊢
            omega)
        have hmonog : ∀ q, (g q).visited = true →
            ((setVisited (removeWallBetween g current next) next true) q).visited = true := by
          intro q hq
          rw [hv2 q]
          by_cases hqn : q = next
          · rw [if_pos hqn]
          · rw [if_neg hqn]
            exact hq
        refine ⟨fun q hq => hmono q (hmonog q hq), hinv2, ?_, ?_⟩
        · intro c hc
          exact hsd c (List.mem_cons_of_mem _ hc)
        · intro c h1 h2
          by_cases hcn : c = next
          · subst hcn
            exact hsd next (List.mem_cons_self _ _)
          · refine hnd c h1 ?_
            rw [hv2 c, if_neg hcn]
            exact h2

theorem fillAreaDFS_master (O : Oracle) (hO : ValidRand O) (w h : Nat) (start : Pos)
    (g : GridF) (p : Pos) (ridx : Nat)
    (hpv : (g p).visited = true) (hpb : InBounds w h p) (hinv : StartInv start g) :
    (∀ q, (g q).visited = true → ((fillAreaDFS O g p w h ridx).1 q).visited = true) ∧
    StartInv start (fillAreaDFS O g p w h ridx).1 ∧
    getUnvisitedNeighbors (fillAreaDFS O g p w h ridx).1 p w h = [] ∧
    (∀ c, ((fillAreaDFS O g p w h ridx).1 c).visited = true → (g c).visited = false →
      getUnvisitedNeighbors (fillAreaDFS O g p w h ridx).1 c w h = []) := by
  rw [fillAreaDFS]
  obtain ⟨hmono, hinv2, hsd, hnd⟩ := dfsLoop_master O hO w h start (2 * (w * h) + 1) [p] g
    ridx
    (by
      intro c hc
      rw [List.mem_singleton.1 hc]
      exact hpv)
    (by
      intro c hc
      rw [List.mem_singleton.1 hc]
      exact hpb)
    hinv
    (by
      have hle := unvisitedCount_le g w h
      simp only [List.length_cons, List.length_nil]
      rw [Nat.mul_comm w h]
      omega)
  exact ⟨hmono, hinv2, hsd p (List.mem_singleton_self p), hnd⟩

theorem fillPass1_master (O : Oracle) (hO : ValidRand O) (w h : Nat) (start : Pos) :
    ∀ (ps : List Pos) (g : GridF) (ridx : Nat),
      (∀ q ∈ ps, InBounds w h q) →
      StartInv start g →
      (∀ q, (g q).visited = true → ((fillPass1 O w h ps g ridx).1 q).visited = true) ∧
      StartInv start (fillPass1 O w h ps g ridx).1 ∧
      (∀ c, ((fillPass1 O w h ps g ridx).1 c).visited = true → (g c).visited = false →
        getUnvisitedNeighbors (fillPass1 O w h ps g ridx).1 c w h = []) ∧
      (∀ q ∈ ps, ((fillPass1 O w h ps g ridx).1 q).visited = false →
        (getNeighbors q w h).filter
          (fun n => ((fillPass1 O w h ps g ridx).1 n).visited) = []) := by
  intro ps
  induction ps with
  | nil =>
    intro g ridx hbnd hinv
    rw [fillPass1]
    refine ⟨fun q hq => hq, hinv, ?_, fun q hq => absurd hq (List.not_mem_nil q)⟩
    intro c h1 h2
    rw [h1] at h2
    exact absurd h2 (by simp)
  | cons p ps ih =>
    intro g ridx hbnd hinv
    rw [fillPass1]
    have hpb : InBounds w h p := hbnd p (List.mem_cons_self _ _)
    by_cases hv : (g p).visited
    · rw [if_pos hv]
      obtain ⟨hA, hI, hC, hB⟩ := ih g ridx
        (fun q hq => hbnd q (List.mem_cons_of_mem _ hq)) hinv
      refine ⟨hA, hI, hC, ?_⟩
      intro q hq hqf
      rcases List.mem_cons.1 hq with rfl | hq2
      · have := hA q hv
        rw [hqf] at this
        exact absurd this (by simp)
      · exact hB q hq2 hqf
    · rw [if_neg hv]
      by_cases hne : ((getNeighbors p w h).filter (fun n => (g n).visited)).isEmpty
      · rw [if_pos hne]
        have hnil0 : (getNeighbors p w h).filter (fun n => (g n).visited) = [] := by
          simpa [List.isEmpty_iff] using hne
        obtain ⟨hA, hI, hC, hB⟩ := ih g ridx
          (fun q hq => hbnd q (List.mem_cons_of_mem _ hq)) hinv
        refine ⟨hA, hI, hC, ?_⟩
        intro q hq hqf
        rcases List.mem_cons.1 hq with rfl | hq2
        · rw [List.filter_eq_nil_iff]
          intro n hn hnv
          by_cases hgn : (g n).visited = true
          · have : n ∈ (getNeighbors q w h).filter (fun n => (g n).visited) :=
              List.mem_filter.2 ⟨hn, hgn⟩
            rw [hnil0] at this
            exact absurd this (List.not_mem_nil n)
          · have hempty := hC n (by simpa using hnv) (by simpa using hgn)
            have hqmem : q ∈ getUnvisitedNeighbors (fillPass1 O w h ps g ridx).1 n w h := by
              unfold getUnvisitedNeighbors
              refine List.mem_filter.2 ⟨getNeighbors_symm hpb hn, ?_⟩
              rw [hqf]
              rfl
            rw [hempty] at hqmem
            exact absurd hqmem (List.not_mem_nil q)
        · exact hB q hq2 hqf
      · rw [if_neg hne]
        dsimp only
        have hnil : (getNeighbors p w h).filter (fun n => (g n).visited) ≠ [] := by
          simpa [List.isEmpty_iff] using hne
        set connector := randPick O ridx
          ((getNeighbors p w h).filter fun n => (g n).visited) p with hcon
        have hmemc : connector ∈ (getNeighbors p w h).filter (fun n => (g n).visited) :=
          randPick_mem hO ridx _ p hnil
        obtain ⟨hcadj, hcvis⟩ := List.mem_filter.1 hmemc
        have hud : UnitDelta connector p := unitDelta_symm (getNeighbors_adjacent hcadj)
        have hv2p : ∀ q, ((setVisited (removeWallBetween g connector p) p true) q).visited
            = if q = p then true else (g q).visited := by
          intro q
          rw [visited_setVisited, visited_removeWallBetween]
        have hmono01 : ∀ q, (g q).visited = true →
            ((setVisited (removeWallBetween g connector p) p true) q).visited = true := by
          intro q hq
          rw [hv2p q]
          by_cases hqp : q = p
          · rw [if_pos hqp]
          · rw [if_neg hqp]
            exact hq
        rcases hfill : fillAreaDFS O
            (setVisited (removeWallBetween g connector p) p true) p w h (ridx + 1)
          with ⟨g2, r2⟩
        dsimp only
        obtain ⟨hDm, hDi, hDp, hDn⟩ := fillAreaDFS_master O hO w h start
          (setVisited (removeWallBetween g connector p) p true) p (ridx + 1)
          (by rw [hv2p p, if_pos rfl]) hpb
          (startInv_carveMark hcvis hud hinv)
        rw [hfill] at hDm hDi hDp hDn
        obtain ⟨hA, hI, hC, hB⟩ := ih g2 r2
          (fun q hq => hbnd q (List.mem_cons_of_mem _ hq)) hDi
        refine ⟨?_, hI, ?_, ?_⟩
        · intro q hq
          exact hA q (hDm q (hmono01 q hq))
        · intro c h1 h2
          by_cases hg2c : (g2 c).visited = true
          · by_cases hg1c : ((setVisited (removeWallBetween g connector p) p true) c).visited
                = true
            · have hcp : c = p := by
                rw [hv2p c] at hg1c
                by_cases hcp : c = p
                · exact hcp
                · rw [if_neg hcp] at hg1c
                  rw [hg1c] at h2
                  exact absurd h2 (by simp)
              subst hcp
              exact getUnvisitedNeighbors_mono_empty hA hDp
            · have := hDn c hg2c (by simpa using hg1c)
              exact getUnvisitedNeighbors_mono_empty hA this
          · exact hC c h1 (by simpa using hg2c)
        · intro q hq hqf
          rcases List.mem_cons.1 hq with rfl | hq2
          · have : ((fillPass1 O w h ps g2 r2).1 q).visited = true :=
              hA q (hDm q (by rw [hv2p q, if_pos rfl]))
            rw [hqf] at this
            exact absurd this (by simp)
          · exact hB q hq2 hqf

/-! ## The reachability invariant through Phase 1 -/

theorem spineLoop_startInv (O : Oracle) (cfg : SpineFirstConfig) (goal start : Pos)
    (w h mpl : Nat) :
    ∀ (fuel : Nat) (st : SpineSt),
      StartInv start st.g →
      (∀ c ∈ st.spine, (st.g c).visited = true) →
      st.spine.Nodup →
      st.spine.getLast? = some start →
      StartInv start (spineLoop O cfg goal w h mpl fuel st).g ∧
      (∀ sp, (spineLoop O cfg goal w h mpl fuel st).spine = some sp →
        (∀ c ∈ sp, ((spineLoop O cfg goal w h mpl fuel st).g c).visited = true) ∧
        sp.head? = some start) := by
  intro fuel
  induction fuel with
  | zero =>
    intro st hinv hvis hnd hlast
    rw [spineLoop]
    rcases hsp : st.spine with _ | ⟨current, rest⟩
    · exact ⟨hinv, fun sp hs => absurd hs (by simp)⟩
    · rw [hsp] at hvis hlast
      dsimp only
      by_cases hcg : current = goal
      · rw [if_pos hcg]
        split
        · exact ⟨hinv, fun sp hs => absurd hs (by simp)⟩
        · split
          · exact ⟨hinv, fun sp hs => absurd hs (by simp)⟩
          · refine ⟨hinv, ?_⟩
            intro sp hs
            obtain rfl := Option.some.inj hs
            exact ⟨fun c hc => hvis c (List.mem_reverse.1 hc),
              by rw [List.head?_reverse]; exact hlast⟩
      · rw [if_neg hcg]
        exact ⟨hinv, fun sp hs => absurd hs (by simp)⟩
  | succ f ih =>
    intro st hinv hvis hnd hlast
    rw [spineLoop]
    rcases hsp : st.spine with _ | ⟨current, rest⟩
    · exact ⟨hinv, fun sp hs => absurd hs (by simp)⟩
    · rw [hsp] at hvis hnd hlast
      dsimp only
      by_cases hcg : current = goal
      · rw [if_pos hcg]
        split
        · exact ⟨hinv, fun sp hs => absurd hs (by simp)⟩
        · split
          · exact ⟨hinv, fun sp hs => absurd hs (by simp)⟩
          · refine ⟨hinv, ?_⟩
            intro sp hs
            obtain rfl := Option.some.inj hs
            exact ⟨fun c hc => hvis c (List.mem_reverse.1 hc),
              by rw [List.head?_reverse]; exact hlast⟩
      · rw [if_neg hcg]
        rcases hnb : getUnvisitedNeighbors st.g current w h with _ | ⟨n0, ns⟩
        · dsimp only
          by_cases hre : rest.isEmpty
          · rw [if_pos hre]
            exact ⟨hinv, fun sp hs => absurd hs (by simp)⟩
          · rw [if_neg hre]
            have hrne : rest ≠ [] := by
              simpa [List.isEmpty_iff] using hre
            have hcnotin : current ∉ rest := (List.nodup_cons.1 hnd).1
            refine ih _ ?_ ?_ ?_ ?_
            · exact startInv_setSpine _ _ (startInv_unvisit _ hinv)
            · intro c hc
              rw [visited_setSpine, visited_setVisited,
                if_neg (fun hccur => hcnotin (show current ∈ rest by
                  rw [← hccur]; exact hc))]
              exact hvis c (List.mem_cons_of_mem _ hc)
            · exact (List.nodup_cons.1 hnd).2
            · cases rest with
              | nil => exact absurd rfl hrne
              | cons b l =>
                rw [List.getLast?_cons_cons] at hlast
                exact hlast
        · dsimp only
          have hcell : (chooseBest
              (scoreNeighbor O cfg goal current st.turnCount st.lastDir st.ridx n0)
              (scoreNeighbors O cfg goal current st.turnCount st.lastDir (st.ridx + 1) ns)).cell
              ∈ n0 :: ns := by
            rcases chooseBest_mem
                (scoreNeighbor O cfg goal current st.turnCount st.lastDir st.ridx n0)
                (scoreNeighbors O cfg goal current st.turnCount st.lastDir (st.ridx + 1) ns)
              with heq | hmem
            · rw [heq, scoreNeighbor_cell]
              exact List.mem_cons_self _ _
            · exact List.mem_cons_of_mem _
                (scoreNeighbors_cells O cfg goal current st.turnCount st.lastDir ns
                  (st.ridx + 1) _ hmem)
          rw [← hnb] at hcell
          obtain ⟨hcadj, hcunvis⟩ := getUnvisitedNeighbors_spec hcell
          have hud : UnitDelta current (chooseBest
              (scoreNeighbor O cfg goal current st.turnCount st.lastDir st.ridx n0)
              (scoreNeighbors O cfg goal current st.turnCount st.lastDir (st.ridx + 1) ns)).cell :=
            getNeighbors_adjacent hcadj
          have hcurv : (st.g current).visited = true := hvis current (List.mem_cons_self _ _)
          have hchnotin : (chooseBest
              (scoreNeighbor O cfg goal current st.turnCount st.lastDir st.ridx n0)
              (scoreNeighbors O cfg goal current st.turnCount st.lastDir (st.ridx + 1) ns)).cell
              ∉ current :: rest := by
            intro hmem
            have := hvis _ hmem
            rw [this] at hcunvis
            exact absurd hcunvis (by simp)
          refine ih _ ?_ ?_ ?_ ?_
          · exact startInv_setSpine _ _ (startInv_carveMark hcurv hud hinv)
          · intro c hc
            rw [visited_setSpine, visited_setVisited]
            by_cases hcch : c = (chooseBest
                (scoreNeighbor O cfg goal current st.turnCount st.lastDir st.ridx n0)
                (scoreNeighbors O cfg goal current st.turnCount st.lastDir (st.ridx + 1) ns)).cell
            · rw [if_pos hcch]
            · rw [if_neg hcch, visited_removeWallBetween]
              rcases List.mem_cons.1 hc with rfl | hc2
              · exact absurd rfl hcch
              · exact hvis c hc2
          · exact List.nodup_cons.2 ⟨hchnotin, hnd⟩
          · rw [List.getLast?_cons_cons]
            exact hlast

theorem generateSpine_startInv (O : Oracle) (start goal : Pos) (w h : Nat)
    (cfg : SpineFirstConfig) :
    StartInv start (generateSpine O initializeGrid start goal w h cfg 0).g ∧
    (∀ sp, (generateSpine O initializeGrid start goal w h cfg 0).spine = some sp →
      (∀ c ∈ sp, ((generateSpine O initializeGrid start goal w h cfg 0).g c).visited = true) ∧
      sp.head? = some start) := by
  rw [generateSpine]
  refine spineLoop_startInv O cfg goal start w h _ _ _ ?_ ?_ ?_ ?_
  · intro c hc
    rw [visited_setSpine, visited_setVisited] at hc
    by_cases hcs : c = start
    · rw [hcs]
      exact Relation.ReflTransGen.refl
    · rw [if_neg hcs] at hc
      exact absurd hc (by simp [initializeGrid])
  · intro c hc
    rw [List.mem_singleton.1 hc, visited_setSpine, visited_setVisited, if_pos rfl]
  · exact List.nodup_singleton start
  · rfl

/-! ## The reachability invariant through Phase 2 -/

theorem startInv_carveMark_or {start : Pos} {g : GridF} {cur t : Pos}
    (hcur : (g cur).visited = true) (hud : UnitDelta cur t ∨ t = cur)
    (hinv : StartInv start g) :
    StartInv start (setVisited (removeWallBetween g cur t) t true) := by
  rcases hud with hud | rfl
  · exact startInv_carveMark hcur hud hinv
  · rw [removeWallBetween_self]
    intro c hc
    rw [toOutputWalls_setVisited]
    rw [visited_setVisited] at hc
    by_cases hct : c = t
    · rw [hct]
      exact hinv t hcur
    · rw [if_neg hct] at hc
      exact hinv c hc

theorem visited_carveMark (g : GridF) (cur t q : Pos) :
    ((setVisited (removeWallBetween g cur t) t true) q).visited
    = if q = t then true else (g q).visited := by
  rw [visited_setVisited, visited_removeWallBetween]

theorem visited_carveMark_mono {g : GridF} {cur t : Pos} (q : Pos)
    (hq : (g q).visited = true) :
    ((setVisited (removeWallBetween g cur t) t true) q).visited = true := by
  rw [visited_carveMark]
  by_cases hqt : q = t
  · rw [if_pos hqt]
  · rw [if_neg hqt]
    exact hq

theorem startInv_linearDeadEnd (O : Oracle) (w h : Nat) (start : Pos) :
    ∀ (depth : Nat) (g : GridF) (s : Pos) (ridx : Nat),
      StartInv start g → (g s).visited = true →
      StartInv start (generateLinearDeadEnd O w h depth g s ridx).1 ∧
      (∀ q, (g q).visited = true →
        ((generateLinearDeadEnd O w h depth g s ridx).1 q).visited = true) := by
  intro depth
  induction depth with
  | zero =>
    intro g s ridx hinv hsv
    rw [generateLinearDeadEnd]
    exact ⟨hinv, fun q hq => hq⟩
  | succ d ih =>
    intro g s ridx hinv hsv
    rw [generateLinearDeadEnd]
    by_cases hne : ((getUnvisitedNeighbors g s w h).filter fun n => !(g n).isSpine).isEmpty
    · rw [if_pos hne]
      exact ⟨hinv, fun q hq => hq⟩
    · rw [if_neg hne]
      dsimp only
      set next := randPick O ridx
        ((getUnvisitedNeighbors g s w h).filter fun n => !(g n).isSpine) s with hnext
      have hud : UnitDelta s next ∨ next = s := by
        rw [hnext]
        exact randPick_unitDelta_or O ridx _ (fun n hn => filterUnvisited_unitDelta hn)
      rcases hrec : generateLinearDeadEnd O w h d
        (setVisited (removeWallBetween g s next) next true) next (ridx + 1)
        with ⟨g2, r2, carves2⟩
      dsimp only
      have hih := ih (setVisited (removeWallBetween g s next) next true) next (ridx + 1)
        (startInv_carveMark_or hsv hud hinv)
        (by rw [visited_carveMark, if_pos rfl])
      rw [hrec] at hih
      exact ⟨hih.1, fun q hq => hih.2 q (visited_carveMark_mono q hq)⟩

theorem startInv_branchMainLoop (O : Oracle) (w h : Nat) (start : Pos) :
    ∀ (steps : Nat) (g : GridF) (s : Pos) (ridx : Nat),
      StartInv start g → (g s).visited = true →
      StartInv start (branchMainLoop O w h steps g s ridx).1 ∧
      (∀ q, (g q).visited = true →
        ((branchMainLoop O w h steps g s ridx).1 q).visited = true) ∧
      (∀ c ∈ (branchMainLoop O w h steps g s ridx).2.2.1,
        ((branchMainLoop O w h steps g s ridx).1 c).visited = true) := by
  intro steps
  induction steps with
  | zero =>
    intro g s ridx hinv hsv
    rw [branchMainLoop]
    exact ⟨hinv, fun q hq => hq, fun c hc => absurd hc (List.not_mem_nil c)⟩
  | succ d ih =>
    intro g s ridx hinv hsv
    rw [branchMainLoop]
    by_cases hne : ((getUnvisitedNeighbors g s w h).filter fun n => !(g n).isSpine).isEmpty
    · rw [if_pos hne]
      exact ⟨hinv, fun q hq => hq, fun c hc => absurd hc (List.not_mem_nil c)⟩
    · rw [if_neg hne]
      dsimp only
      set next := randPick O ridx
        ((getUnvisitedNeighbors g s w h).filter fun n => !(g n).isSpine) s with hnext
      have hud : UnitDelta s next ∨ next = s := by
        rw [hnext]
        exact randPick_unitDelta_or O ridx _ (fun n hn => filterUnvisited_unitDelta hn)
      rcases hrec : branchMainLoop O w h d
        (setVisited (removeWallBetween g s next) next true) next (ridx + 1)
        with ⟨g2, r2, cells2, carves2⟩
      dsimp only
      have hih := ih (setVisited (removeWallBetween g s next) next true) next (ridx + 1)
        (startInv_carveMark_or hsv hud hinv)
        (by rw [visited_carveMark, if_pos rfl])
      rw [hrec] at hih
      refine ⟨hih.1, fun q hq => hih.2.1 q (visited_carveMark_mono q hq), ?_⟩
      intro c hc
      rcases List.mem_cons.1 hc with rfl | hc2
      · exact hih.2.1 next (by rw [visited_carveMark, if_pos rfl])
      · exact hih.2.2 c hc2

theorem startInv_subBranchLoop (O : Oracle) (w h : Nat) (sbc : Q) (maxSB : Int)
    (start : Pos) :
    ∀ (cells : List Pos) (added : Nat) (g : GridF) (ridx : Nat),
      StartInv start g → (∀ c ∈ cells, (g c).visited = true) →
      StartInv start (subBranchLoop O w h sbc maxSB cells added g ridx).1 ∧
      (∀ q, (g q).visited = true →
        ((subBranchLoop O w h sbc maxSB cells added g ridx).1 q).visited = true) := by
  intro cells
  induction cells with
  | nil =>
    intro added g ridx hinv _
    rw [subBranchLoop]
    exact ⟨hinv, fun q hq => hq⟩
  | cons cell cells ih =>
    intro added g ridx hinv hcv
    rw [subBranchLoop]
    by_cases hstop : maxSB ≤ (added : Int)
    · rw [if_pos hstop]
      exact ⟨hinv, fun q hq => hq⟩
    · rw [if_neg hstop]
      by_cases hch : sbc < O.rand ridx
      · rw [if_pos hch]
        exact ih added g (ridx + 1) hinv (fun c hc => hcv c (List.mem_cons_of_mem _ hc))
      · rw [if_neg hch]
        by_cases hne : ((getUnvisitedNeighbors g cell w h).filter
            fun n => !(g n).isSpine).isEmpty
        · rw [if_pos hne]
          exact ih added g (ridx + 1) hinv (fun c hc => hcv c (List.mem_cons_of_mem _ hc))
        · rw [if_neg hne]
          dsimp only
          set subStart := randPick O (ridx + 1)
            ((getUnvisitedNeighbors g cell w h).filter fun n => !(g n).isSpine) cell
            with hss
          have hud : UnitDelta cell subStart ∨ subStart = cell := by
            rw [hss]
            exact randPick_unitDelta_or O (ridx + 1) _
              (fun n hn => filterUnvisited_unitDelta hn)
          have hcellv : (g cell).visited = true := hcv cell (List.mem_cons_self _ _)
          set g1 := setVisited (removeWallBetween g cell subStart) subStart true with hg1
          rcases hlin : generateLinearDeadEnd O w h
            ((5 + (O.rand (ridx + 2) * (21 : Q)).floor - 1).toNat) g1 subStart (ridx + 3)
            with ⟨g2, r2, bodyC⟩
          rcases hsub : subBranchLoop O w h sbc maxSB cells (added + 1) g2 r2
            with ⟨g3, r3, spawns⟩
          dsimp only
          have hlinspec := startInv_linearDeadEnd O w h start
            ((5 + (O.rand (ridx + 2) * (21 : Q)).floor - 1).toNat) g1 subStart (ridx + 3)
            (by rw [hg1]; exact startInv_carveMark_or hcellv hud hinv)
            (by rw [hg1, visited_carveMark, if_pos rfl])
          rw [hlin] at hlinspec
          have hih := ih (added + 1) g2 r2 hlinspec.1
            (fun c hc => hlinspec.2 c (by
              rw [hg1]
              exact visited_carveMark_mono c (hcv c (List.mem_cons_of_mem _ hc))))
          rw [hsub] at hih
          exact ⟨hih.1, fun q hq => hih.2 q (hlinspec.2 q (by
            rw [hg1]
            exact visited_carveMark_mono q hq))⟩

theorem startInv_generateDeadEndBranch (O : Oracle) (hO : ValidRand O) (w h : Nat)
    (sbc : Q) (start : Pos) (depth : Nat) (g : GridF) (s : Pos) (ridx : Nat)
    (hinv : StartInv start g) (hsv : (g s).visited = true) :
    StartInv start (generateDeadEndBranch O w h sbc depth g s ridx).g ∧
    (∀ q, (g q).visited = true →
      ((generateDeadEndBranch O w h sbc depth g s ridx).g q).visited = true) := by
  cases depth with
  | zero =>
    rw [generateDeadEndBranch]
    exact ⟨hinv, fun q hq => hq⟩
  | succ d =>
    rw [generateDeadEndBranch]
    rcases hmain : branchMainLoop O w h (d + 1) g s ridx with ⟨g1, r1, grown, mcarves⟩
    dsimp only
    have hmainspec := startInv_branchMainLoop O w h start (d + 1) g s ridx hinv hsv
    rw [hmain] at hmainspec
    by_cases hguard : (0 : Q) < sbc ∧ 1 < (s :: grown).length
    · rw [if_pos hguard]
      dsimp only
      rcases hsub : subBranchLoop O w h sbc ((O.rand r1 * (4 : Q)).floor)
        (O.shuffle (r1 + 1) ((s :: grown).drop 1)) 0 g1
        (r1 + 1 + O.shuffleCost (r1 + 1)) with ⟨g3, r3, spawns⟩
      dsimp only
      have hsubspec := startInv_subBranchLoop O w h sbc ((O.rand r1 * (4 : Q)).floor) start
        (O.shuffle (r1 + 1) ((s :: grown).drop 1)) 0 g1
        (r1 + 1 + O.shuffleCost (r1 + 1)) hmainspec.1
        (by
          intro c hc
          have hcm : c ∈ (s :: grown).drop 1 :=
            (hO.2 (r1 + 1) ((s :: grown).drop 1)).mem_iff.1 hc
          exact hmainspec.2.2 c hcm)
      rw [hsub] at hsubspec
      exact ⟨hsubspec.1, fun q hq => hsubspec.2 q (hmainspec.2.1 q hq)⟩
    · rw [if_neg hguard]
      exact ⟨hmainspec.1, hmainspec.2.1⟩

theorem startInv_branchesStep (O : Oracle) (hO : ValidRand O) (w h : Nat)
    (cfg : SpineFirstConfig) (spine : List Pos) (i : Nat) (lbi : Int) (g : GridF)
    (ridx : Nat) (start : Pos)
    (hinv : StartInv start g) (hspv : ∀ c ∈ spine, (g c).visited = true)
    (hi : i < spine.length) :
    StartInv start (branchesStep O w h cfg spine i lbi g ridx).1 ∧
    (∀ q, (g q).visited = true →
      ((branchesStep O w h cfg spine i lbi g ridx).1 q).visited = true) := by
  unfold branchesStep
  dsimp only
  by_cases h1 : (i : Int) - lbi < cfg.minBranchSpacing.getD 5
  · rw [if_pos h1]
    exact ⟨hinv, fun q hq => hq⟩
  · rw [if_neg h1]
    by_cases h2 : cfg.branchChance < O.rand ridx
    · rw [if_pos h2]
      exact ⟨hinv, fun q hq => hq⟩
    · rw [if_neg h2]
      by_cases h3 : ((getUnvisitedNeighbors g (spine.getD i ⟨0, 0⟩) w h).filter
          fun n => !(g n).isSpine).isEmpty
      · rw [if_pos h3]
        exact ⟨hinv, fun q hq => hq⟩
      · rw [if_neg h3]
        dsimp only
        set branchStart := randPick O (ridx + 1)
          ((getUnvisitedNeighbors g (spine.getD i ⟨0, 0⟩) w h).filter
            fun n => !(g n).isSpine) (spine.getD i ⟨0, 0⟩) with hbs
        have hud : UnitDelta (spine.getD i ⟨0, 0⟩) branchStart ∨
            branchStart = spine.getD i ⟨0, 0⟩ := by
          rw [hbs]
          exact randPick_unitDelta_or O (ridx + 1) _
            (fun n hn => filterUnvisited_unitDelta hn)
        have hscv : (g (spine.getD i ⟨0, 0⟩)).visited = true := by
          have hmem : spine.getD i ⟨0, 0⟩ ∈ spine := by
            rw [List.getD_eq_getElem spine _ hi]
            exact List.getElem_mem hi
          exact hspv _ hmem
        refine ⟨?_, ?_⟩
        · exact (startInv_generateDeadEndBranch O hO w h _ start _ _ _ _
            (startInv_carveMark_or hscv hud hinv)
            (by rw [visited_carveMark, if_pos rfl])).1
        · intro q hq
          exact (startInv_generateDeadEndBranch O hO w h _ start _ _ _ _
            (startInv_carveMark_or hscv hud hinv)
            (by rw [visited_carveMark, if_pos rfl])).2 q (visited_carveMark_mono q hq)

theorem startInv_branchesLoop (O : Oracle) (hO : ValidRand O) (w h : Nat)
    (cfg : SpineFirstConfig) (spine : List Pos) (start : Pos) :
    ∀ (idxs : List Nat) (lbi : Int) (g : GridF) (ridx : Nat),
      StartInv start g → (∀ c ∈ spine, (g c).visited = true) →
      (∀ i ∈ idxs, i < spine.length) →
      StartInv start (branchesLoop O w h cfg spine idxs lbi g ridx).g ∧
      (∀ q, (g q).visited = true →
        ((branchesLoop O w h cfg spine idxs lbi g ridx).g q).visited = true) := by
  intro idxs
  induction idxs with
  | nil =>
    intro lbi g ridx hinv _ _
    rw [branchesLoop]
    exact ⟨hinv, fun q hq => hq⟩
  | cons i idxs ih =>
    intro lbi g ridx hinv hspv hidx
    rw [branchesLoop]
    rcases hstep : branchesStep O w h cfg spine i lbi g ridx with ⟨g1, r1, lbi1, cs1⟩
    dsimp only
    have hstepspec := startInv_branchesStep O hO w h cfg spine i lbi g ridx start hinv hspv
      (hidx i (List.mem_cons_self _ _))
    rw [hstep] at hstepspec
    have hih := ih lbi1 g1 r1 hstepspec.1
      (fun c hc => hstepspec.2 c (hspv c hc))
      (fun j hj => hidx j (List.mem_cons_of_mem _ hj))
    exact ⟨hih.1, fun q hq => hih.2 q (hstepspec.2 q hq)⟩

theorem startInv_generateBranches (O : Oracle) (hO : ValidRand O) (g : GridF)
    (spine : List Pos) (w h : Nat) (cfg : SpineFirstConfig) (ridx : Nat) (start : Pos)
    (hinv : StartInv start g) (hspv : ∀ c ∈ spine, (g c).visited = true) :
    StartInv start (generateBranches O g spine w h cfg ridx).g ∧
    (∀ q, (g q).visited = true →
      ((generateBranches O g spine w h cfg ridx).g q).visited = true) := by
  rw [generateBranches]
  refine startInv_branchesLoop O hO w h cfg spine start _ _ g ridx hinv hspv ?_
  intro i hi
  rw [List.mem_range'_1] at hi
  omega

/-- C4: a successful generation run with `fillRemaining` enabled (under the
random-oracle model of `Math.random` and the given in-grid start cell)
leaves every cell of the returned grid reachable from the start cell
through open passages: Phase 3 leaves no isolated pocket. -/
theorem fill_reachability (O : Oracle) (hO : ValidRand O) (w h : Nat)
    (start goal : Pos) (cfg : SpineFirstConfig) (W : Pos → Walls)
    (hsb : InBounds w h start) (hfill : cfg.fillRemaining = true)
    (hW : generateSpineFirstMaze O w h start goal cfg = some W) :
    ∀ p, InBounds w h p → ReachW W start p := by
  unfold generateSpineFirstMaze generateSpineFirstMazeRun at hW
  dsimp only at hW
  set sr := generateSpine O initializeGrid start goal w h cfg 0 with hsr
  rcases hsp : sr.spine with _ | spine
  · rw [hsp] at hW
    exact absurd hW (by simp)
  · rw [hsp] at hW
    dsimp only at hW
    rw [if_pos hfill] at hW
    set br := generateBranches O sr.g spine w h cfg sr.ridx with hbr
    rcases hfr : fillRemainingAreas O br.g w h br.ridx with ⟨gf, rf⟩
    rw [hfr] at hW
    dsimp only at hW
    obtain rfl := Option.some.inj hW
    obtain ⟨hinv1, hspconc⟩ := generateSpine_startInv O start goal w h cfg
    rw [← hsr] at hinv1 hspconc
    obtain ⟨hspv, hhead⟩ := hspconc spine hsp
    have hstartmem : start ∈ spine := List.mem_of_mem_head? (by rw [hhead]; rfl)
    have hstartv : (sr.g start).visited = true := hspv start hstartmem
    obtain ⟨hinv2, hmono2⟩ := startInv_generateBranches O hO sr.g spine w h cfg sr.ridx
      start hinv1 hspv
    rw [← hbr] at hinv2 hmono2
    rw [fillRemainingAreas] at hfr
    rcases hp1 : fillPass1 O w h (gridPositions w h) br.g br.ridx with ⟨g1, r1⟩
    rw [hp1] at hfr
    dsimp only at hfr
    obtain ⟨hA, hI, hC, hB⟩ := fillPass1_master O hO w h start (gridPositions w h)
      br.g br.ridx (fun q hq => mem_gridPositions.1 hq) hinv2
    rw [hp1] at hA hI hC hB
    have hall : ∀ c, InBounds w h c → (g1 c).visited = true :=
      allVisited_of_noFrontier hsb (hA start (hmono2 start hstartv))
        (fun q hqb hqf => hB q (mem_gridPositions.2 hqb) hqf)
    rw [fillPass2_id O w h (gridPositions w h) g1 r1
      (fun p hp => hall p (mem_gridPositions.1 hp))] at hfr
    injection hfr with he1 he2
    subst he1
    intro p hp
    exact hI p (hall p hp)

/-- C4 witness: the concrete 2×2 filled run satisfies the hypotheses, and
its goal cell is reachable from its start cell in the returned maze. -/
theorem fill_reachability_witness :
    ValidRand exO3 ∧ InBounds 2 2 ⟨0, 0⟩ ∧ cfg3.fillRemaining = true ∧
    ReachW (toOutputWalls run3Grid) ⟨0, 0⟩ ⟨1, 1⟩ :=
  ⟨validRand_exO3, ⟨by decide, by decide⟩, rfl,
    fill_reachability exO3 validRand_exO3 2 2 ⟨0, 0⟩ ⟨1, 1⟩ cfg3
      (toOutputWalls run3Grid) ⟨by decide, by decide⟩ rfl run3_maze ⟨1, 1⟩
      ⟨by decide, by decide⟩⟩
